import Mathlib

/-!
Shallow embedding of the cowork-replica IPC bridge and process supervisor
(src/src-tauri/src/ipc.rs, src/src-tauri/src/process.rs), together with
proofs of the specified properties.

Strings on the wire are modelled as `List Char`.  JSON numbers are modelled
as integers (the repository's wire traffic never relies on floats; serde_json
float forms are rejected by the model parser).  The serde_json serializer and
the derived (de)serializer for `IPCMessage` are modelled faithfully to their
documented behaviour: compact output, field order = declaration order,
`Option` as `null`, short escapes for the usual control characters and
lowercase hex for other control characters.
-/

namespace Cowork

/-- JSON values carried in the `payload` field of a wire message
(serde_json `Value`, restricted to the integer-number fragment). -/
inductive Json : Type where
  | null : Json
  | bool (b : Bool) : Json
  | num (n : Int) : Json
  | str (s : String) : Json
  | arr (elems : List Json) : Json
  | obj (fields : List (String × Json)) : Json

/-- The decimal digit character for `n < 10`. -/
def digitChar (n : Nat) : Char := Char.ofNat (48 + n)

/-- Decimal digit list of a natural number, most significant first
(Rust `u128`/`u64` `Display`). -/
def natDigits (n : Nat) : List Char :=
  if h : n < 10 then [digitChar n]
  else natDigits (n / 10) ++ [digitChar (n % 10)]
termination_by n
decreasing_by exact Nat.div_lt_self (by omega) (by omega)

/-- Decimal rendering of an integer (Rust `i64` `Display`). -/
def renderInt (i : Int) : List Char :=
  if i < 0 then '-' :: natDigits i.natAbs else natDigits i.toNat

/-- Fold decimal digit characters into the number they denote. -/
def digitsToNat (ds : List Char) (acc : Nat) : Nat :=
  ds.foldl (fun a c => a * 10 + (c.toNat - 48)) acc

def quoteChar : Char := '"'

def lbrace : Char := Char.ofNat 123

def rbrace : Char := Char.ofNat 125

/-- Lowercase hex digit character for `n < 16` (serde_json's hex table). -/
def hexDigitChar (n : Nat) : Char :=
  if n < 10 then Char.ofNat (48 + n) else Char.ofNat (87 + n)

/-- serde_json's escaping of a single character inside a JSON string:
`"` and `\` are escaped, the control characters BS HT LF FF CR get their
short escapes, other control characters become `\u00XX`, everything else
is emitted as-is. -/
def escapeChar (c : Char) : List Char :=
  if c = quoteChar then ['\\', quoteChar]
  else if c = '\\' then ['\\', '\\']
  else if c.toNat = 8 then ['\\', 'b']
  else if c.toNat = 9 then ['\\', 't']
  else if c.toNat = 10 then ['\\', 'n']
  else if c.toNat = 12 then ['\\', 'f']
  else if c.toNat = 13 then ['\\', 'r']
  else if c.toNat < 32 then
    ['\\', 'u', '0', '0', hexDigitChar (c.toNat / 16), hexDigitChar (c.toNat % 16)]
  else [c]

/-- Escaped character stream of a JSON string body. -/
def renderStringChars : List Char → List Char
  | [] => []
  | c :: cs => escapeChar c ++ renderStringChars cs

/-- A JSON string literal: quote, escaped body, quote. -/
def renderString (s : String) : List Char :=
  quoteChar :: (renderStringChars s.data ++ [quoteChar])

mutual

/-- Compact JSON rendering (serde_json `to_string`). -/
def renderJson : Json → List Char
  | .null => ['n', 'u', 'l', 'l']
  | .bool true => 't' :: ['r', 'u', 'e']
  | .bool false => 'f' :: ['a', 'l', 's', 'e']
  | .num i => renderInt i
  | .str s => renderString s
  | .arr [] => ['[', ']']
  | .arr (x :: xs) => '[' :: renderElems x xs
  | .obj [] => [lbrace, rbrace]
  | .obj (f :: fs) => lbrace :: renderFields f fs
termination_by j => sizeOf j
decreasing_by all_goals (simp_wf <;> omega)

/-- Comma-separated array elements, including the closing bracket. -/
def renderElems : Json → List Json → List Char
  | x, [] => renderJson x ++ [']']
  | x, y :: ys => renderJson x ++ ',' :: renderElems y ys
termination_by x xs => 1 + sizeOf x + sizeOf xs
decreasing_by all_goals (simp_wf <;> omega)

/-- Comma-separated object members, including the closing brace. -/
def renderFields : (String × Json) → List (String × Json) → List Char
  | (k, v), [] => renderString k ++ ':' :: (renderJson v ++ [rbrace])
  | (k, v), g :: gs => renderString k ++ ':' :: (renderJson v ++ ',' :: renderFields g gs)
termination_by f gs => 1 + sizeOf f + sizeOf gs
decreasing_by all_goals (simp_wf <;> omega)

end

/-- JSON insignificant whitespace (serde_json's set). -/
def isWs (c : Char) : Bool := c = ' ' || c = '\t' || c = '\n' || c = '\r'

/-- Drop leading JSON whitespace. -/
def skipWs : List Char → List Char
  | [] => []
  | c :: cs => if isWs c then skipWs cs else c :: cs

/-- Value of one hex digit character. -/
def hexVal (c : Char) : Option Nat :=
  if 48 ≤ c.toNat ∧ c.toNat ≤ 57 then some (c.toNat - 48)
  else if 97 ≤ c.toNat ∧ c.toNat ≤ 102 then some (c.toNat - 87)
  else if 65 ≤ c.toNat ∧ c.toNat ≤ 70 then some (c.toNat - 55)
  else none

mutual

/-- Parse the body of a JSON string after the opening quote, returning the
decoded characters and the input after the closing quote.  Surrogate-pair
escapes are not modelled (the renderer never emits them). -/
def parseStrChars : List Char → Option (List Char × List Char)
  | [] => none
  | c :: cs =>
    if c = quoteChar then some ([], cs)
    else if c = '\\' then parseStrEscape cs
    else if c.toNat < 32 then none
    else (parseStrChars cs).map (fun p => (c :: p.1, p.2))
termination_by cs => cs.length
decreasing_by all_goals (simp <;> omega)

/-- Handle the character after a backslash inside a JSON string. -/
def parseStrEscape : List Char → Option (List Char × List Char)
  | [] => none
  | e :: cs2 =>
    if e = 'u' then parseStrUnicode cs2
    else if e = quoteChar then (parseStrChars cs2).map (fun p => (quoteChar :: p.1, p.2))
    else if e = '\\' then (parseStrChars cs2).map (fun p => ('\\' :: p.1, p.2))
    else if e = '/' then (parseStrChars cs2).map (fun p => ('/' :: p.1, p.2))
    else if e = 'b' then (parseStrChars cs2).map (fun p => (Char.ofNat 8 :: p.1, p.2))
    else if e = 't' then (parseStrChars cs2).map (fun p => (Char.ofNat 9 :: p.1, p.2))
    else if e = 'n' then (parseStrChars cs2).map (fun p => (Char.ofNat 10 :: p.1, p.2))
    else if e = 'f' then (parseStrChars cs2).map (fun p => (Char.ofNat 12 :: p.1, p.2))
    else if e = 'r' then (parseStrChars cs2).map (fun p => (Char.ofNat 13 :: p.1, p.2))
    else none
termination_by cs => cs.length
decreasing_by all_goals (simp <;> omega)

/-- Handle a `\uXXXX` escape body inside a JSON string. -/
def parseStrUnicode : List Char → Option (List Char × List Char)
  | h1 :: h2 :: h3 :: h4 :: cs3 =>
    match hexVal h1, hexVal h2, hexVal h3, hexVal h4 with
    | some a, some b, some c2, some d =>
      let n := ((a * 16 + b) * 16 + c2) * 16 + d
      if n < 55296 then
        (parseStrChars cs3).map (fun p => (Char.ofNat n :: p.1, p.2))
      else none
    | _, _, _, _ => none
  | _ => none
termination_by cs => cs.length
decreasing_by all_goals (simp <;> omega)

end

/-- ASCII decimal digit test. -/
def isDigitCh (c : Char) : Bool := 48 ≤ c.toNat && c.toNat ≤ 57

/-- Parse a natural number literal (one or more digits, no leading zero,
not followed by a float continuation). -/
def parseNumNat (cs : List Char) : Option (Nat × List Char) :=
  let ds := cs.takeWhile isDigitCh
  let rest := cs.dropWhile isDigitCh
  if ds.isEmpty then none
  else if ds.head? = some '0' ∧ 1 < ds.length then none
  else
    match rest with
    | [] => some (digitsToNat ds 0, [])
    | c :: _ =>
      if c = '.' ∨ c = 'e' ∨ c = 'E' then none
      else some (digitsToNat ds 0, rest)

/-- Parse an integer JSON number (float forms are outside the model). -/
def parseNum (cs : List Char) : Option (Int × List Char) :=
  match cs with
  | [] => none
  | c :: rest =>
    if c = '-' then (parseNumNat rest).map (fun p => (-(p.1 : Int), p.2))
    else (parseNumNat (c :: rest)).map (fun p => ((p.1 : Int), p.2))

/-- Recognize the tail of the keyword `null`. -/
def parseNullKw : List Char → Option (Json × List Char)
  | 'u' :: 'l' :: 'l' :: r => some (.null, r)
  | _ => none

/-- Recognize the tail of the keyword `true`. -/
def parseTrueKw : List Char → Option (Json × List Char)
  | 'r' :: 'u' :: 'e' :: r => some (.bool true, r)
  | _ => none

/-- Recognize the tail of the keyword `false`. -/
def parseFalseKw : List Char → Option (Json × List Char)
  | 'a' :: 'l' :: 's' :: 'e' :: r => some (.bool false, r)
  | _ => none

mutual

/-- Fueled recursive-descent parser for one JSON value; returns the value
and the unconsumed remainder.  The continuation-style helper functions
below split the parse into single steps. -/
def parseValue : Nat → List Char → Option (Json × List Char)
  | 0, _ => none
  | fuel + 1, cs => parseValueTok fuel (skipWs cs)
termination_by fuel _ => (fuel, 9)

/-- Dispatch on the first significant character of a value. -/
def parseValueTok : Nat → List Char → Option (Json × List Char)
  | _, [] => none
  | fuel, c :: cs2 =>
    if c = 'n' then parseNullKw cs2
    else if c = 't' then parseTrueKw cs2
    else if c = 'f' then parseFalseKw cs2
    else if c = quoteChar then (parseStrChars cs2).map (fun p => (.str ⟨p.1⟩, p.2))
    else if c = '[' then parseArr fuel (skipWs cs2)
    else if c = lbrace then parseObj fuel (skipWs cs2)
    else (parseNum (c :: cs2)).map (fun p => (.num p.1, p.2))
termination_by fuel _ => (fuel, 8)

/-- Parse the inside of an array after the opening bracket. -/
def parseArr : Nat → List Char → Option (Json × List Char)
  | _, [] => none
  | fuel, d :: r =>
    if d = ']' then some (.arr [], r)
    else (parseElems fuel (d :: r)).map (fun p => (.arr p.1, p.2))
termination_by fuel _ => (fuel, 7)

/-- Parse the inside of an object after the opening brace. -/
def parseObj : Nat → List Char → Option (Json × List Char)
  | _, [] => none
  | fuel, r :: r2 =>
    if r = rbrace then some (.obj [], r2)
    else (parseFields fuel (r :: r2)).map (fun p => (.obj p.1, p.2))
termination_by fuel _ => (fuel, 7)

/-- Parse one or more comma-separated array elements and the closing
bracket. -/
def parseElems : Nat → List Char → Option (List Json × List Char)
  | 0, _ => none
  | fuel + 1, cs => parseElemsValRes fuel (parseValue fuel cs)
termination_by fuel _ => (fuel, 6)

/-- Continue an array after one element has been parsed. -/
def parseElemsValRes : Nat → Option (Json × List Char) → Option (List Json × List Char)
  | _, none => none
  | fuel, some (v, r) => parseElemsSep fuel v (skipWs r)
termination_by fuel _ => (fuel, 8)

/-- Handle the separator after an array element. -/
def parseElemsSep : Nat → Json → List Char → Option (List Json × List Char)
  | _, _, [] => none
  | fuel, v, d :: r2 =>
    if d = ',' then (parseElems fuel r2).map (fun p => (v :: p.1, p.2))
    else if d = ']' then some ([v], r2)
    else none
termination_by fuel _ _ => (fuel, 7)

/-- Parse one or more comma-separated object members and the closing
brace. -/
def parseFields : Nat → List Char → Option (List (String × Json) × List Char)
  | 0, _ => none
  | fuel + 1, cs => parseFieldsKey fuel (skipWs cs)
termination_by fuel _ => (fuel, 6)

/-- Expect the quoted key of an object member. -/
def parseFieldsKey : Nat → List Char → Option (List (String × Json) × List Char)
  | _, [] => none
  | fuel, c :: cs2 =>
    if c = quoteChar then parseFieldsKeyRes fuel (parseStrChars cs2)
    else none
termination_by fuel _ => (fuel, 12)

/-- Continue an object member after its key has been parsed. -/
def parseFieldsKeyRes : Nat → Option (List Char × List Char) →
    Option (List (String × Json) × List Char)
  | _, none => none
  | fuel, some (k, r) => parseFieldsColon fuel k (skipWs r)
termination_by fuel _ => (fuel, 11)

/-- Expect the colon between an object key and its value. -/
def parseFieldsColon : Nat → List Char → List Char →
    Option (List (String × Json) × List Char)
  | _, _, [] => none
  | fuel, k, d0 :: r2 =>
    if d0 = ':' then parseFieldsValRes fuel k (parseValue fuel r2)
    else none
termination_by fuel _ _ => (fuel, 10)

/-- Continue an object member after its value has been parsed. -/
def parseFieldsValRes : Nat → List Char → Option (Json × List Char) →
    Option (List (String × Json) × List Char)
  | _, _, none => none
  | fuel, k, some (v, r3) => parseFieldsSep fuel k v (skipWs r3)
termination_by fuel _ _ => (fuel, 9)

/-- Handle the separator after an object member. -/
def parseFieldsSep : Nat → List Char → Json → List Char →
    Option (List (String × Json) × List Char)
  | _, _, _, [] => none
  | fuel, k, v, d :: r4 =>
    if d = ',' then (parseFields fuel r4).map (fun p => ((⟨k⟩, v) :: p.1, p.2))
    else if d = rbrace then some ([(⟨k⟩, v)], r4)
    else none
termination_by fuel _ _ _ => (fuel, 7)

end

/-- Parse a complete JSON document: one value, with only whitespace allowed
after it (serde_json `from_str` end-of-input check). -/
def parseJsonChars (cs : List Char) : Option Json :=
  match parseValue (cs.length + 1) cs with
  | none => none
  | some (v, rest) =>
    match skipWs rest with
    | [] => some v
    | _ :: _ => none

/-- Rust `str::trim`: drop whitespace from both ends. -/
def rustTrim (s : List Char) : List Char :=
  ((s.dropWhile Char.isWhitespace).reverse.dropWhile Char.isWhitespace).reverse

/-! ### Character arithmetic facts -/

theorem toNat_ofNat_of_lt {n : Nat} (h : n < 55296) : (Char.ofNat n).toNat = n := by
  have hv : n.isValidChar := Or.inl h
  simp [Char.ofNat, hv, Char.ofNatAux, Char.toNat, UInt32.toNat, BitVec.toNat_ofNatLt]

theorem digitChar_toNat {d : Nat} (h : d < 10) : (digitChar d).toNat = 48 + d :=
  toNat_ofNat_of_lt (by omega)

theorem isDigitCh_digitChar {d : Nat} (h : d < 10) : isDigitCh (digitChar d) = true := by
  simp [isDigitCh, digitChar_toNat h]
  omega

theorem isDigitCh_toNat {c : Char} (h : isDigitCh c = true) :
    48 ≤ c.toNat ∧ c.toNat ≤ 57 := by
  simpa [isDigitCh] using h

/-! ### Decimal digits round-trip -/

theorem natDigits_cons (n : Nat) : ∃ c t, natDigits n = c :: t ∧ isDigitCh c = true := by
  induction n using Nat.strong_induction_on with
  | _ n ih =>
    by_cases h : n < 10
    · exact ⟨digitChar n, [], by rw [natDigits]; simp [h], isDigitCh_digitChar h⟩
    · obtain ⟨c, t, hct, hc⟩ := ih (n / 10) (Nat.div_lt_self (by omega) (by omega))
      refine ⟨c, t ++ [digitChar (n % 10)], ?_, hc⟩
      rw [natDigits]; simp [h, hct]

theorem natDigits_all_digits (n : Nat) : ∀ c ∈ natDigits n, isDigitCh c = true := by
  induction n using Nat.strong_induction_on with
  | _ n ih =>
    intro c hc
    rw [natDigits] at hc
    by_cases h : n < 10
    · simp [h] at hc
      exact hc ▸ isDigitCh_digitChar h
    · simp [h] at hc
      rcases hc with hc | hc
      · exact ih (n / 10) (Nat.div_lt_self (by omega) (by omega)) c hc
      · exact hc ▸ isDigitCh_digitChar (Nat.mod_lt _ (by omega))

theorem digitsToNat_append (ds : List Char) (c : Char) (acc : Nat) :
    digitsToNat (ds ++ [c]) acc = 10 * digitsToNat ds acc + (c.toNat - 48) := by
  simp [digitsToNat, List.foldl_append]
  omega

theorem digitsToNat_natDigits (n : Nat) : digitsToNat (natDigits n) 0 = n := by
  induction n using Nat.strong_induction_on with
  | _ n ih =>
    rw [natDigits]
    by_cases h : n < 10
    · simp [h, digitsToNat, digitChar_toNat h]
    · simp only [h, dite_false]
      rw [digitsToNat_append, ih (n / 10) (Nat.div_lt_self (by omega) (by omega)),
        digitChar_toNat (Nat.mod_lt _ (by omega))]
      omega

theorem natDigits_injective {m n : Nat} (h : natDigits m = natDigits n) : m = n := by
  have := digitsToNat_natDigits m
  rw [h, digitsToNat_natDigits] at this
  omega

theorem natDigits_head_ne_zero {n : Nat} (hn : 0 < n) :
    ∀ c t, natDigits n = c :: t → c.toNat ≠ 48 := by
  induction n using Nat.strong_induction_on with
  | _ n ih =>
    intro c t hct
    rw [natDigits] at hct
    by_cases h : n < 10
    · simp [h] at hct
      rw [← hct.1, digitChar_toNat h]
      omega
    · simp only [h, dite_false] at hct
      obtain ⟨c', t', hct', _⟩ := natDigits_cons (n / 10)
      rw [hct'] at hct
      simp at hct
      exact hct.1 ▸ ih (n / 10) (Nat.div_lt_self (by omega) (by omega))
        (by omega) c' t' hct'

/-! ### takeWhile / dropWhile over an all-true prefix -/

theorem takeWhile_append_all {p : Char → Bool} {l r : List Char}
    (h : ∀ c ∈ l, p c = true) : (l ++ r).takeWhile p = l ++ r.takeWhile p := by
  induction l with
  | nil => rfl
  | cons c cs ih =>
    have hc := h c (by simp)
    have ih2 := ih (fun x hx => h x (by simp [hx]))
    simp [List.takeWhile_cons, hc, ih2]

theorem dropWhile_append_all {p : Char → Bool} {l r : List Char}
    (h : ∀ c ∈ l, p c = true) : (l ++ r).dropWhile p = r.dropWhile p := by
  induction l with
  | nil => rfl
  | cons c cs ih =>
    have hc := h c (by simp)
    have ih2 := ih (fun x hx => h x (by simp [hx]))
    simp [List.dropWhile_cons, hc, ih2]

/-- The character after a rendered number must not extend the numeral:
not a digit and not a float continuation. -/
def numSafe : List Char → Prop
  | [] => True
  | c :: _ => isDigitCh c = false ∧ c ≠ '.' ∧ c ≠ 'e' ∧ c ≠ 'E'

theorem parseNumNat_natDigits (n : Nat) (rest : List Char) (h : numSafe rest) :
    parseNumNat (natDigits n ++ rest) = some (n, rest) := by
  have hall := natDigits_all_digits n
  have htake : (natDigits n ++ rest).takeWhile isDigitCh
      = natDigits n ++ rest.takeWhile isDigitCh := takeWhile_append_all hall
  have hdrop : (natDigits n ++ rest).dropWhile isDigitCh
      = rest.dropWhile isDigitCh := dropWhile_append_all hall
  have htr : rest.takeWhile isDigitCh = [] ∧ rest.dropWhile isDigitCh = rest := by
    cases rest with
    | nil => simp
    | cons r rs =>
      obtain ⟨h1, -⟩ := h
      simp [List.takeWhile_cons, List.dropWhile_cons, h1]
  obtain ⟨c0, t0, hct, hc0⟩ := natDigits_cons n
  rw [parseNumNat]
  simp only [htake, hdrop, htr.1, htr.2, List.append_nil]
  have hne : (natDigits n).isEmpty = false := by simp [hct]
  rw [hne]
  simp only [Bool.false_eq_true, if_false]
  have hlead : ¬((natDigits n).head? = some '0' ∧ 1 < (natDigits n).length) := by
    rintro ⟨hh, hl⟩
    by_cases hn : n = 0
    · subst hn
      rw [natDigits] at hct hl
      simp at hct hl
    · rw [hct] at hh
      simp at hh
      exact natDigits_head_ne_zero (by omega) c0 t0 hct (by rw [hh]; rfl)
  rw [if_neg hlead]
  cases rest with
  | nil => simp [digitsToNat_natDigits]
  | cons r rs =>
    obtain ⟨-, h2, h3, h4⟩ := h
    simp [h2, h3, h4, digitsToNat_natDigits]

theorem isDigitCh_ne_minus {c : Char} (h : isDigitCh c = true) : c ≠ '-' := by
  intro he
  subst he
  exact absurd h (by decide)

theorem parseNum_renderInt (i : Int) (rest : List Char) (h : numSafe rest) :
    parseNum (renderInt i ++ rest) = some (i, rest) := by
  by_cases hi : i < 0
  · rw [renderInt, if_pos hi]
    simp only [List.cons_append, parseNum, if_pos rfl]
    rw [parseNumNat_natDigits _ _ h]
    show some (-((i.natAbs : Nat) : Int), rest) = some (i, rest)
    have hab : -((i.natAbs : Nat) : Int) = i := by omega
    rw [hab]
  · rw [renderInt, if_neg hi]
    obtain ⟨c0, t0, hct, hc0⟩ := natDigits_cons i.toNat
    rw [hct]
    simp only [List.cons_append, parseNum, if_neg (isDigitCh_ne_minus hc0)]
    rw [← List.cons_append, ← hct, parseNumNat_natDigits _ _ h]
    show some (((i.toNat : Nat) : Int), rest) = some (i, rest)
    have hab : ((i.toNat : Nat) : Int) = i := by omega
    rw [hab]

/-! ### String escaping round-trip -/

theorem hexVal_hexDigitChar : ∀ m, m < 16 → hexVal (hexDigitChar m) = some m := by decide

theorem parseStrChars_quote (cs : List Char) :
    parseStrChars (quoteChar :: cs) = some ([], cs) := by
  rw [parseStrChars, if_pos rfl]

theorem parseStrChars_backslash (cs : List Char) :
    parseStrChars ('\\' :: cs) = parseStrEscape cs := by
  rw [parseStrChars]
  rfl

theorem parseStrChars_raw {c : Char} (h1 : ¬c = quoteChar) (h2 : ¬c = '\\')
    (h3 : ¬c.toNat < 32) (cs : List Char) :
    parseStrChars (c :: cs) = (parseStrChars cs).map (fun p => (c :: p.1, p.2)) := by
  rw [parseStrChars, if_neg h1, if_neg h2, if_neg h3]

theorem parseStrEscape_u (cs : List Char) :
    parseStrEscape ('u' :: cs) = parseStrUnicode cs := by
  rw [parseStrEscape]
  rfl

theorem parseStrEscape_quote (cs : List Char) :
    parseStrEscape (quoteChar :: cs)
      = (parseStrChars cs).map (fun p => (quoteChar :: p.1, p.2)) := by
  rw [parseStrEscape]
  rfl

theorem parseStrEscape_backslash (cs : List Char) :
    parseStrEscape ('\\' :: cs)
      = (parseStrChars cs).map (fun p => ('\\' :: p.1, p.2)) := by
  rw [parseStrEscape]
  rfl

theorem parseStrEscape_b (cs : List Char) :
    parseStrEscape ('b' :: cs)
      = (parseStrChars cs).map (fun p => (Char.ofNat 8 :: p.1, p.2)) := by
  rw [parseStrEscape]
  rfl

theorem parseStrEscape_t (cs : List Char) :
    parseStrEscape ('t' :: cs)
      = (parseStrChars cs).map (fun p => (Char.ofNat 9 :: p.1, p.2)) := by
  rw [parseStrEscape]
  rfl

theorem parseStrEscape_n (cs : List Char) :
    parseStrEscape ('n' :: cs)
      = (parseStrChars cs).map (fun p => (Char.ofNat 10 :: p.1, p.2)) := by
  rw [parseStrEscape]
  rfl

theorem parseStrEscape_f (cs : List Char) :
    parseStrEscape ('f' :: cs)
      = (parseStrChars cs).map (fun p => (Char.ofNat 12 :: p.1, p.2)) := by
  rw [parseStrEscape]
  rfl

theorem parseStrEscape_r (cs : List Char) :
    parseStrEscape ('r' :: cs)
      = (parseStrChars cs).map (fun p => (Char.ofNat 13 :: p.1, p.2)) := by
  rw [parseStrEscape]
  rfl

theorem parseStrChars_append (s rest : List Char) :
    parseStrChars (renderStringChars s ++ (quoteChar :: rest)) = some (s, rest) := by
  induction s with
  | nil =>
    rw [renderStringChars, List.nil_append, parseStrChars_quote]
  | cons c cs ih =>
    rw [renderStringChars, List.append_assoc]
    by_cases h1 : c = quoteChar
    · subst h1
      show parseStrChars ('\\' :: quoteChar :: (renderStringChars cs ++ quoteChar :: rest))
        = some (quoteChar :: cs, rest)
      rw [parseStrChars_backslash, parseStrEscape_quote, ih]
      rfl
    · by_cases h2 : c = '\\'
      · subst h2
        show parseStrChars ('\\' :: '\\' :: (renderStringChars cs ++ quoteChar :: rest))
          = some ('\\' :: cs, rest)
        rw [parseStrChars_backslash, parseStrEscape_backslash, ih]
        rfl
      · by_cases h3 : c.toNat = 8
        · have hc : Char.ofNat 8 = c := by rw [← h3, Char.ofNat_toNat]
          rw [escapeChar, if_neg h1, if_neg h2, if_pos h3]
          show parseStrChars ('\\' :: 'b' :: (renderStringChars cs ++ quoteChar :: rest))
            = some (c :: cs, rest)
          rw [parseStrChars_backslash, parseStrEscape_b, ih, hc]
          rfl
        · by_cases h4 : c.toNat = 9
          · have hc : Char.ofNat 9 = c := by rw [← h4, Char.ofNat_toNat]
            rw [escapeChar, if_neg h1, if_neg h2, if_neg h3, if_pos h4]
            show parseStrChars ('\\' :: 't' :: (renderStringChars cs ++ quoteChar :: rest))
              = some (c :: cs, rest)
            rw [parseStrChars_backslash, parseStrEscape_t, ih, hc]
            rfl
          · by_cases h5 : c.toNat = 10
            · have hc : Char.ofNat 10 = c := by rw [← h5, Char.ofNat_toNat]
              rw [escapeChar, if_neg h1, if_neg h2, if_neg h3, if_neg h4, if_pos h5]
              show parseStrChars ('\\' :: 'n' :: (renderStringChars cs ++ quoteChar :: rest))
                = some (c :: cs, rest)
              rw [parseStrChars_backslash, parseStrEscape_n, ih, hc]
              rfl
            · by_cases h6 : c.toNat = 12
              · have hc : Char.ofNat 12 = c := by rw [← h6, Char.ofNat_toNat]
                rw [escapeChar, if_neg h1, if_neg h2, if_neg h3, if_neg h4, if_neg h5,
                  if_pos h6]
                show parseStrChars ('\\' :: 'f' :: (renderStringChars cs ++ quoteChar :: rest))
                  = some (c :: cs, rest)
                rw [parseStrChars_backslash, parseStrEscape_f, ih, hc]
                rfl
              · by_cases h7 : c.toNat = 13
                · have hc : Char.ofNat 13 = c := by rw [← h7, Char.ofNat_toNat]
                  rw [escapeChar, if_neg h1, if_neg h2, if_neg h3, if_neg h4, if_neg h5,
                    if_neg h6, if_pos h7]
                  show parseStrChars ('\\' :: 'r' :: (renderStringChars cs ++ quoteChar :: rest))
                    = some (c :: cs, rest)
                  rw [parseStrChars_backslash, parseStrEscape_r, ih, hc]
                  rfl
                · by_cases h8 : c.toNat < 32
                  · rw [escapeChar, if_neg h1, if_neg h2, if_neg h3, if_neg h4, if_neg h5,
                      if_neg h6, if_neg h7, if_pos h8]
                    have hhi : c.toNat / 16 < 16 := by omega
                    have hlo : c.toNat % 16 < 16 := by omega
                    show parseStrChars ('\\' :: 'u' :: '0' :: '0' :: hexDigitChar (c.toNat / 16)
                        :: hexDigitChar (c.toNat % 16)
                        :: (renderStringChars cs ++ quoteChar :: rest))
                      = some (c :: cs, rest)
                    rw [parseStrChars_backslash, parseStrEscape_u, parseStrUnicode]
                    rw [show Cowork.hexVal '0' = some 0 from by decide,
                      hexVal_hexDigitChar _ hhi, hexVal_hexDigitChar _ hlo]
                    show (if ((0 * 16 + 0) * 16 + c.toNat / 16) * 16 + c.toNat % 16 < 55296 then
                        (parseStrChars (renderStringChars cs ++ quoteChar :: rest)).map
                          (fun p => (Char.ofNat (((0 * 16 + 0) * 16 + c.toNat / 16) * 16
                            + c.toNat % 16) :: p.1, p.2))
                      else none) = some (c :: cs, rest)
                    have hn : ((0 * 16 + 0) * 16 + c.toNat / 16) * 16 + c.toNat % 16
                        = c.toNat := by omega
                    rw [hn, if_pos (by omega), ih, Char.ofNat_toNat]
                    rfl
                  · rw [escapeChar, if_neg h1, if_neg h2, if_neg h3, if_neg h4, if_neg h5,
                      if_neg h6, if_neg h7, if_neg h8]
                    rw [List.singleton_append, parseStrChars_raw h1 h2 h8, ih]
                    rfl

/-! ### Fuel measures for the value parser -/

mutual

/-- Fuel needed by `parseValue` on the rendering of `v`. -/
def fuelJ : Json → Nat
  | .arr (x :: xs) => 1 + fuelE x xs
  | .obj (f :: fs) => 1 + fuelF f fs
  | _ => 1
termination_by j => sizeOf j
decreasing_by all_goals (simp_wf <;> omega)

/-- Fuel needed by `parseElems` on the rendering of `x :: xs`. -/
def fuelE : Json → List Json → Nat
  | x, [] => 1 + fuelJ x
  | x, y :: ys => 1 + max (fuelJ x) (fuelE y ys)
termination_by x xs => 1 + sizeOf x + sizeOf xs
decreasing_by all_goals (simp_wf <;> omega)

/-- Fuel needed by `parseFields` on the rendering of `f :: fs`. -/
def fuelF : (String × Json) → List (String × Json) → Nat
  | (_, v), [] => 1 + fuelJ v
  | (_, v), g :: gs => 1 + max (fuelJ v) (fuelF g gs)
termination_by f gs => 1 + sizeOf f + sizeOf gs
decreasing_by all_goals (simp_wf <;> omega)

end

theorem fuelJ_pos (v : Json) : 1 ≤ fuelJ v := by
  cases v with
  | null => simp [fuelJ]
  | bool b => simp [fuelJ]
  | num i => simp [fuelJ]
  | str s => simp [fuelJ]
  | arr es => cases es <;> simp [fuelJ] <;> omega
  | obj fs => cases fs <;> simp [fuelJ] <;> omega

theorem fuelE_pos (x : Json) (xs : List Json) : 1 ≤ fuelE x xs := by
  cases xs <;> simp [fuelE] <;> omega

theorem fuelF_pos (f : String × Json) (fs : List (String × Json)) : 1 ≤ fuelF f fs := by
  obtain ⟨k, v⟩ := f
  cases fs <;> simp [fuelF] <;> omega

/-! ### Head-shape facts about renderings -/

theorem isDigitCh_head_facts {c : Char} (h : isDigitCh c = true) :
    isWs c = false ∧ ¬c = ']' ∧ ¬c = 'n' ∧ ¬c = 't' ∧ ¬c = 'f' ∧ ¬c = quoteChar ∧
      ¬c = '[' ∧ ¬c = lbrace := by
  obtain ⟨hlo, hhi⟩ := isDigitCh_toNat h
  refine ⟨?_, ?_, ?_, ?_, ?_, ?_, ?_, ?_⟩
  · have e1 : ¬c = ' ' := fun he => by subst he; exact absurd hlo (by decide)
    have e2 : ¬c = '\t' := fun he => by subst he; exact absurd hlo (by decide)
    have e3 : ¬c = '\n' := fun he => by subst he; exact absurd hlo (by decide)
    have e4 : ¬c = '\r' := fun he => by subst he; exact absurd hlo (by decide)
    simp [isWs, e1, e2, e3, e4]
  · exact fun he => by subst he; exact absurd hhi (by decide)
  · exact fun he => by subst he; exact absurd hhi (by decide)
  · exact fun he => by subst he; exact absurd hhi (by decide)
  · exact fun he => by subst he; exact absurd hhi (by decide)
  · exact fun he => by subst he; exact absurd hlo (by decide)
  · exact fun he => by subst he; exact absurd hhi (by decide)
  · exact fun he => by subst he; exact absurd hhi (by decide)

theorem renderJson_head (v : Json) :
    ∃ c t, renderJson v = c :: t ∧ isWs c = false ∧ ¬c = ']' := by
  cases v with
  | null => exact ⟨'n', _, by rw [renderJson], by decide, by decide⟩
  | bool b =>
    cases b with
    | true => exact ⟨'t', _, by rw [renderJson], by decide, by decide⟩
    | false => exact ⟨'f', _, by rw [renderJson], by decide, by decide⟩
  | num i =>
    by_cases hi : i < 0
    · exact ⟨'-', _, by rw [renderJson, renderInt, if_pos hi], by decide, by decide⟩
    · obtain ⟨c0, t0, hct, hc0⟩ := natDigits_cons i.toNat
      obtain ⟨hws, hrb, -⟩ := isDigitCh_head_facts hc0
      exact ⟨c0, t0, by rw [renderJson, renderInt, if_neg hi, hct], hws, hrb⟩
  | str s => exact ⟨quoteChar, _, by rw [renderJson, renderString], by decide, by decide⟩
  | arr es =>
    cases es with
    | nil => exact ⟨'[', _, by rw [renderJson], by decide, by decide⟩
    | cons x xs => exact ⟨'[', _, by rw [renderJson], by decide, by decide⟩
  | obj fs =>
    cases fs with
    | nil => exact ⟨lbrace, _, by rw [renderJson], by decide, by decide⟩
    | cons f gs => exact ⟨lbrace, _, by rw [renderJson], by decide, by decide⟩

theorem renderElems_head (x : Json) (xs : List Json) :
    ∃ c t, renderElems x xs = c :: t ∧ isWs c = false ∧ ¬c = ']' := by
  obtain ⟨c, t, hct, hws, hrb⟩ := renderJson_head x
  cases xs with
  | nil => exact ⟨c, t ++ [']'], by rw [renderElems, hct]; rfl, hws, hrb⟩
  | cons y ys =>
    exact ⟨c, t ++ ',' :: renderElems y ys, by rw [renderElems, hct]; rfl, hws, hrb⟩

theorem renderFields_head (f : String × Json) (gs : List (String × Json)) :
    ∃ t, renderFields f gs = quoteChar :: t := by
  obtain ⟨k, v⟩ := f
  cases gs with
  | nil =>
    exact ⟨renderStringChars k.data ++ [quoteChar] ++ ':' :: (renderJson v ++ [rbrace]),
      by rw [renderFields, renderString]; simp⟩
  | cons g hs =>
    exact ⟨renderStringChars k.data ++ [quoteChar]
        ++ ':' :: (renderJson v ++ ',' :: renderFields g hs),
      by rw [renderFields, renderString]; simp⟩

theorem skipWs_cons_false {c : Char} (h : isWs c = false) (cs : List Char) :
    skipWs (c :: cs) = c :: cs := by
  simp [skipWs, h]

theorem numSafe_comma (t : List Char) : numSafe (',' :: t) :=
  ⟨by decide, by decide, by decide, by decide⟩

theorem numSafe_rbracket (t : List Char) : numSafe (']' :: t) :=
  ⟨by decide, by decide, by decide, by decide⟩

theorem numSafe_rbrace (t : List Char) : numSafe (rbrace :: t) :=
  ⟨by decide, by decide, by decide, by decide⟩

/-! ### Single-step dispatch facts for `parseValue` -/

theorem parseValue_succ_minus (fu : Nat) (tail : List Char) :
    parseValue (fu + 1) ('-' :: tail)
      = (parseNum ('-' :: tail)).map (fun p => (.num p.1, p.2)) := by
  rw [parseValue, skipWs_cons_false (by decide), parseValueTok]
  rfl

theorem parseValue_succ_digit {c0 : Char} (hd : isDigitCh c0 = true) (fu : Nat)
    (tail : List Char) :
    parseValue (fu + 1) (c0 :: tail)
      = (parseNum (c0 :: tail)).map (fun p => (.num p.1, p.2)) := by
  obtain ⟨hws, -, hn, ht, hf, hq, hbk, hbr⟩ := isDigitCh_head_facts hd
  rw [parseValue, skipWs_cons_false hws, parseValueTok]
  simp [hn, ht, hf, hq, hbk, hbr]

/-! ### The parser inverts the renderer -/

theorem parse_render_fuel (fuel : Nat) :
    (∀ v rest, fuelJ v ≤ fuel → numSafe rest →
      parseValue fuel (renderJson v ++ rest) = some (v, rest)) ∧
    (∀ x xs rest, fuelE x xs ≤ fuel →
      parseElems fuel (renderElems x xs ++ rest) = some (x :: xs, rest)) ∧
    (∀ f fs rest, fuelF f fs ≤ fuel →
      parseFields fuel (renderFields f fs ++ rest) = some (f :: fs, rest)) := by
  induction fuel with
  | zero =>
    refine ⟨fun v rest hf _ => absurd hf (by have := fuelJ_pos v; omega),
      fun x xs rest hf => absurd hf (by have := fuelE_pos x xs; omega),
      fun f fs rest hf => absurd hf (by have := fuelF_pos f fs; omega)⟩
  | succ fu ih =>
    obtain ⟨ih1, ih2, ih3⟩ := ih
    refine ⟨?_, ?_, ?_⟩
    · intro v rest hf hsafe
      cases v with
      | null =>
        rw [renderJson]
        simp only [List.cons_append, List.nil_append]
        rw [parseValue, skipWs_cons_false (by decide), parseValueTok]
        rfl
      | bool b =>
        cases b with
        | true =>
          rw [renderJson]
          simp only [List.cons_append, List.nil_append]
          rw [parseValue, skipWs_cons_false (by decide), parseValueTok]
          rfl
        | false =>
          rw [renderJson]
          simp only [List.cons_append, List.nil_append]
          rw [parseValue, skipWs_cons_false (by decide), parseValueTok]
          rfl
      | num i =>
        by_cases hi : i < 0
        · rw [renderJson, renderInt, if_pos hi]
          simp only [List.cons_append]
          rw [parseValue_succ_minus, show '-' :: (natDigits i.natAbs ++ rest)
              = renderInt i ++ rest from by rw [renderInt, if_pos hi]; simp,
            parseNum_renderInt i rest hsafe]
          rfl
        · obtain ⟨c0, t0, hct, hc0⟩ := natDigits_cons i.toNat
          rw [renderJson, renderInt, if_neg hi, hct]
          simp only [List.cons_append]
          rw [parseValue_succ_digit hc0, show c0 :: (t0 ++ rest)
              = renderInt i ++ rest from by rw [renderInt, if_neg hi, hct]; simp,
            parseNum_renderInt i rest hsafe]
          rfl
      | str s =>
        rw [renderJson, renderString]
        simp only [List.cons_append]
        rw [parseValue, skipWs_cons_false (by decide), parseValueTok]
        rw [show (renderStringChars s.data ++ [quoteChar]) ++ rest
            = renderStringChars s.data ++ (quoteChar :: rest) from by simp]
        rw [parseStrChars_append]
        rfl
      | arr es =>
        cases es with
        | nil =>
          rw [renderJson]
          simp only [List.cons_append, List.nil_append]
          rw [parseValue, skipWs_cons_false (by decide), parseValueTok,
            skipWs_cons_false (by decide), parseArr]
          rfl
        | cons x xs =>
          rw [renderJson]
          simp only [List.cons_append]
          rw [parseValue, skipWs_cons_false (by decide), parseValueTok]
          obtain ⟨c0, t0, hct, hws, hrb⟩ := renderElems_head x xs
          rw [hct]
          simp only [List.cons_append]
          rw [skipWs_cons_false hws, parseArr, if_neg hrb, ← List.cons_append, ← hct,
            ih2 x xs rest (by rw [fuelJ] at hf; omega)]
          rfl
      | obj fs =>
        cases fs with
        | nil =>
          rw [renderJson]
          simp only [List.cons_append, List.nil_append]
          rw [parseValue, skipWs_cons_false (by decide), parseValueTok,
            skipWs_cons_false (by decide), parseObj]
          rfl
        | cons f gs =>
          rw [renderJson]
          simp only [List.cons_append]
          rw [parseValue, skipWs_cons_false (by decide), parseValueTok]
          obtain ⟨t, hct⟩ := renderFields_head f gs
          rw [hct]
          simp only [List.cons_append]
          rw [skipWs_cons_false (by decide), parseObj, if_neg (by decide),
            ← List.cons_append, ← hct,
            ih3 f gs rest (by rw [fuelJ] at hf; omega)]
          rfl
    · intro x xs rest hfe
      cases xs with
      | nil =>
        rw [renderElems, List.append_assoc]
        simp only [List.singleton_append]
        rw [parseElems, ih1 x (']' :: rest) (by rw [fuelE] at hfe; omega)
            (numSafe_rbracket rest),
          parseElemsValRes, skipWs_cons_false (by decide), parseElemsSep]
        rfl
      | cons y ys =>
        rw [renderElems, List.append_assoc]
        simp only [List.cons_append]
        rw [parseElems, ih1 x (',' :: (renderElems y ys ++ rest))
            (by rw [fuelE] at hfe; omega) (numSafe_comma _),
          parseElemsValRes, skipWs_cons_false (by decide), parseElemsSep,
          if_pos rfl, ih2 y ys rest (by rw [fuelE] at hfe; omega)]
        rfl
    · intro f fs rest hff
      obtain ⟨k, v⟩ := f
      cases fs with
      | nil =>
        rw [renderFields, renderString]
        simp only [List.cons_append, List.append_assoc, List.singleton_append]
        rw [parseFields, skipWs_cons_false (by decide), parseFieldsKey, if_pos rfl,
          parseStrChars_append, parseFieldsKeyRes]
        simp only [List.nil_append]
        rw [skipWs_cons_false (by decide),
          parseFieldsColon, if_pos rfl,
          ih1 v (rbrace :: rest) (by rw [fuelF] at hff; omega) (numSafe_rbrace rest),
          parseFieldsValRes, skipWs_cons_false (by decide), parseFieldsSep,
          if_neg (by decide), if_pos rfl]
      | cons g gs =>
        rw [renderFields, renderString]
        simp only [List.cons_append, List.append_assoc]
        rw [parseFields, skipWs_cons_false (by decide), parseFieldsKey, if_pos rfl,
          parseStrChars_append, parseFieldsKeyRes]
        simp only [List.nil_append]
        rw [skipWs_cons_false (by decide),
          parseFieldsColon, if_pos rfl,
          ih1 v (',' :: (renderFields g gs ++ rest)) (by rw [fuelF] at hff; omega)
            (numSafe_comma _),
          parseFieldsValRes, skipWs_cons_false (by decide), parseFieldsSep,
          if_pos rfl, ih3 g gs rest (by rw [fuelF] at hff; omega)]
        rfl

mutual

theorem fuelJ_le_length : ∀ v : Json, fuelJ v ≤ (renderJson v).length
  | .null => by simp [fuelJ, renderJson]
  | .bool true => by simp [fuelJ, renderJson]
  | .bool false => by simp [fuelJ, renderJson]
  | .num i => by
    rw [renderJson]
    by_cases hi : i < 0
    · simp [fuelJ, renderInt, hi]
    · obtain ⟨c0, t0, hct, -⟩ := natDigits_cons i.toNat
      simp [fuelJ, renderInt, hi, hct]
  | .str s => by simp [fuelJ, renderJson, renderString]
  | .arr [] => by simp [fuelJ, renderJson]
  | .arr (x :: xs) => by
    have h := fuelE_le_length x xs
    simp [fuelJ, renderJson]
    omega
  | .obj [] => by simp [fuelJ, renderJson]
  | .obj (f :: fs) => by
    have h := fuelF_le_length f fs
    simp [fuelJ, renderJson]
    omega
termination_by v => sizeOf v
decreasing_by all_goals (simp_wf <;> omega)

theorem fuelE_le_length : ∀ (x : Json) (xs : List Json),
    fuelE x xs ≤ (renderElems x xs).length
  | x, [] => by
    have h := fuelJ_le_length x
    simp [fuelE, renderElems]
    omega
  | x, y :: ys => by
    have h1 := fuelJ_le_length x
    have h2 := fuelE_le_length y ys
    simp [fuelE, renderElems]
    omega
termination_by x xs => 1 + sizeOf x + sizeOf xs
decreasing_by all_goals (simp_wf <;> omega)

theorem fuelF_le_length : ∀ (f : String × Json) (fs : List (String × Json)),
    fuelF f fs ≤ (renderFields f fs).length
  | (k, v), [] => by
    have h := fuelJ_le_length v
    simp [fuelF, renderFields]
    omega
  | (k, v), g :: gs => by
    have h1 := fuelJ_le_length v
    have h2 := fuelF_le_length g gs
    simp [fuelF, renderFields]
    omega
termination_by f fs => 1 + sizeOf f + sizeOf fs
decreasing_by all_goals (simp_wf <;> omega)

end

/-- The document parser inverts the renderer. -/
theorem parseJsonChars_renderJson (v : Json) :
    parseJsonChars (renderJson v) = some v := by
  have h := (parse_render_fuel ((renderJson v).length + 1)).1 v []
    (by have := fuelJ_le_length v; omega) trivial
  rw [List.append_nil] at h
  rw [parseJsonChars, h]
  rfl

/-! ### IPC message structure (src/src-tauri/src/ipc.rs) -/

/-- IPC Message types: event, request or response (serde lowercase names). -/
inductive IPCMessageType : Type where
  | event : IPCMessageType
  | request : IPCMessageType
  | response : IPCMessageType
deriving DecidableEq

/-- Wire name of a message type (serde `rename_all = "lowercase"`). -/
def IPCMessageType.wireName : IPCMessageType → String
  | .event => "event"
  | .request => "request"
  | .response => "response"

/-- IPC Message structure: the standard message format used for all IPC
communication.  `msg_type` is serialized under that name. -/
structure IPCMessage where
  id : Option String
  msg_type : IPCMessageType
  event : String
  payload : Json
  error : Option String

/-- `IPCMessage::event`: a new event message (no id). -/
def IPCMessage.mkEvent (event : String) (payload : Json) : IPCMessage :=
  ⟨none, .event, event, payload, none⟩

/-- `IPCMessage::request`: a new request message. -/
def IPCMessage.mkRequest (id event : String) (payload : Json) : IPCMessage :=
  ⟨some id, .request, event, payload, none⟩

/-- `IPCMessage::response`: a new response message. -/
def IPCMessage.mkResponse (id event : String) (payload : Json) : IPCMessage :=
  ⟨some id, .response, event, payload, none⟩

/-- `IPCMessage::error_response`: an error response message. -/
def IPCMessage.mkErrorResponse (id event error : String) : IPCMessage :=
  ⟨some id, .response, event, .null, some error⟩

/-- Serialization of an `Option String` field (serde: `None` ↦ `null`). -/
def optStrJson : Option String → Json
  | none => .null
  | some s => .str s

/-- serde `Serialize` for `IPCMessage`: a JSON object with the five fields
in declaration order. -/
def messageToJson (m : IPCMessage) : Json :=
  .obj [("id", optStrJson m.id), ("msg_type", .str m.msg_type.wireName),
    ("event", .str m.event), ("payload", m.payload), ("error", optStrJson m.error)]

/-- First value bound to key `k` in a decoded JSON object. -/
def getField (fs : List (String × Json)) (k : String) : Option Json :=
  (fs.find? (fun p => p.1 = k)).map Prod.snd

/-- Deserialize an optional-string field (`null` and absent are `None`). -/
def jsonOptStr : Json → Option (Option String)
  | .null => some none
  | .str s => some (some s)
  | _ => none

/-- Deserialize the `msg_type` field. -/
def jsonMsgType : Json → Option IPCMessageType
  | .str s =>
    if s = "event" then some .event
    else if s = "request" then some .request
    else if s = "response" then some .response
    else none
  | _ => none

/-- The five known field names of `IPCMessage`. -/
def knownKeys : List String := ["id", "msg_type", "event", "payload", "error"]

/-- serde `Deserialize` for `IPCMessage`: expects a JSON object, rejects a
duplicated known field, ignores unknown fields, treats a missing or `null`
optional field as `None`, and requires `msg_type`, a string `event`, and
`payload`. -/
def jsonToMessage : Json → Option IPCMessage
  | .obj fs =>
    if knownKeys.any (fun k => 1 < (fs.map Prod.fst).count k) then none
    else
      match (match getField fs "id" with
             | none => some none
             | some j => jsonOptStr j),
            (getField fs "msg_type").bind jsonMsgType,
            (match getField fs "event" with
             | some (.str s) => some s
             | _ => none),
            getField fs "payload",
            (match getField fs "error" with
             | none => some none
             | some j => jsonOptStr j) with
      | some i, some t, some e, some p, some er => some ⟨i, t, e, p, er⟩
      | _, _, _, _, _ => none
  | _ => none

/-- `encode_message_for_stdin`: serde_json `to_string` (which cannot fail on
this type, the payload being a `Value`) followed by the newline delimiter,
wrapped in the `Result` the Rust function returns. -/
def encode_message_for_stdin (msg : IPCMessage) : Except String (List Char) :=
  .ok (renderJson (messageToJson msg) ++ ['\n'])

/-- `parse_stdin_message`: trim surrounding whitespace, reject an empty
line, then serde_json `from_str::<IPCMessage>`. -/
def parse_stdin_message (raw : List Char) : Except String IPCMessage :=
  let trimmed := rustTrim raw
  if trimmed.isEmpty then .error "Empty message"
  else
    match parseJsonChars trimmed with
    | none => .error "Failed to parse message"
    | some j =>
      match jsonToMessage j with
      | none => .error "Failed to parse message"
      | some m => .ok m

theorem jsonToMessage_messageToJson (m : IPCMessage) :
    jsonToMessage (messageToJson m) = some m := by
  obtain ⟨i, t, e, p, er⟩ := m
  cases i <;> cases er <;> cases t <;> rfl

/-! ### Trimming -/

theorem renderFields_last (f : String × Json) (gs : List (String × Json)) :
    ∃ l, renderFields f gs = l ++ [rbrace] := by
  induction gs generalizing f with
  | nil =>
    obtain ⟨k, v⟩ := f
    exact ⟨renderString k ++ ':' :: renderJson v, by rw [renderFields]; simp⟩
  | cons g hs ih =>
    obtain ⟨k, v⟩ := f
    obtain ⟨l, hl⟩ := ih g
    exact ⟨renderString k ++ ':' :: (renderJson v ++ ',' :: l),
      by rw [renderFields, hl]; simp⟩

theorem messageToJson_render_shape (m : IPCMessage) :
    ∃ l, renderJson (messageToJson m) = lbrace :: (l ++ [rbrace]) := by
  obtain ⟨l, hl⟩ := renderFields_last ("id", optStrJson m.id)
    [("msg_type", .str m.msg_type.wireName), ("event", .str m.event),
     ("payload", m.payload), ("error", optStrJson m.error)]
  exact ⟨l, by rw [messageToJson, renderJson, hl]⟩

theorem rustTrim_wrap {a b : Char} (ha : a.isWhitespace = false)
    (hb : b.isWhitespace = false) (l : List Char) :
    rustTrim ((a :: (l ++ [b])) ++ ['\n']) = a :: (l ++ [b]) := by
  rw [rustTrim]
  simp [List.dropWhile_cons, ha, hb]

theorem rustTrim_wrap_msg (m : IPCMessage) :
    rustTrim (renderJson (messageToJson m) ++ ['\n'])
      = renderJson (messageToJson m) := by
  obtain ⟨l, hl⟩ := messageToJson_render_shape m
  rw [hl]
  exact rustTrim_wrap (by decide) (by decide) l

theorem parse_stdin_message_encode (m : IPCMessage) :
    parse_stdin_message (renderJson (messageToJson m) ++ ['\n']) = .ok m := by
  have hne : (renderJson (messageToJson m)).isEmpty = false := by
    obtain ⟨l, hl⟩ := messageToJson_render_shape m
    rw [hl]
    rfl
  simp only [parse_stdin_message]
  rw [rustTrim_wrap_msg, hne, parseJsonChars_renderJson]
  simp [jsonToMessage_messageToJson]

theorem rustTrim_cons_ws {c : Char} (h : c.isWhitespace = true) (l : List Char) :
    rustTrim (c :: l) = rustTrim l := by
  rw [rustTrim, rustTrim, List.dropWhile_cons, if_pos h]

theorem dropWhile_all_ws {l : List Char} (h : ∀ c ∈ l, c.isWhitespace = true) :
    l.dropWhile Char.isWhitespace = [] := by
  have h2 := dropWhile_append_all (r := []) h
  simpa using h2

theorem rustTrim_append_ws_left {ws1 l : List Char}
    (h : ∀ c ∈ ws1, c.isWhitespace = true) :
    rustTrim (ws1 ++ l) = rustTrim l := by
  rw [rustTrim, rustTrim, dropWhile_append_all h]

theorem rustTrim_append_ws_right {l ws2 : List Char}
    (h : ∀ c ∈ ws2, c.isWhitespace = true) :
    rustTrim (l ++ ws2) = rustTrim l := by
  induction l with
  | nil =>
    simp only [List.nil_append]
    rw [rustTrim, dropWhile_all_ws h]
    rfl
  | cons c cs ih =>
    by_cases hw : c.isWhitespace = true
    · rw [List.cons_append, rustTrim_cons_ws hw, rustTrim_cons_ws hw, ih]
    · have hwf : c.isWhitespace = false := by
        revert hw
        cases c.isWhitespace <;> simp
      rw [List.cons_append, rustTrim, rustTrim, List.dropWhile_cons,
        List.dropWhile_cons, hwf]
      simp only [Bool.false_eq_true, if_false]
      have h2 : ∀ x ∈ ws2.reverse, x.isWhitespace = true :=
        fun x hx => h x (List.mem_reverse.mp hx)
      rw [show (c :: (cs ++ ws2)).reverse = ws2.reverse ++ (cs.reverse ++ [c]) by simp,
        dropWhile_append_all h2,
        show (c :: cs).reverse = cs.reverse ++ [c] by simp]

theorem parse_stdin_message_trim (ws1 raw ws2 : List Char)
    (h1 : ∀ c ∈ ws1, c.isWhitespace = true)
    (h2 : ∀ c ∈ ws2, c.isWhitespace = true) :
    parse_stdin_message (ws1 ++ raw ++ ws2) = parse_stdin_message raw := by
  have ht : rustTrim (ws1 ++ raw ++ ws2) = rustTrim raw := by
    rw [List.append_assoc, rustTrim_append_ws_left h1, rustTrim_append_ws_right h2]
  simp only [parse_stdin_message, ht]

theorem parse_stdin_message_error_iff (raw : List Char) :
    (∃ e, parse_stdin_message raw = .error e) ↔
      (rustTrim raw = [] ∨ (parseJsonChars (rustTrim raw)).bind jsonToMessage = none) := by
  simp only [parse_stdin_message]
  by_cases he : (rustTrim raw).isEmpty
  · simp [he, List.isEmpty_iff.mp he]
  · have hne : ¬(rustTrim raw = []) := by simpa [List.isEmpty_iff] using he
    rw [if_neg (by simpa using he)]
    cases hp : parseJsonChars (rustTrim raw) with
    | none => simp [hne]
    | some j =>
      cases hm : jsonToMessage j with
      | none => simp [hm, hne]
      | some m => simp [hm, hne]

/-! ### Bridge outbound path (stdin channel and message queue) -/

/-- The wire line produced for a message by the (never-failing) encoder. -/
def encodeString (m : IPCMessage) : List Char :=
  renderJson (messageToJson m) ++ ['\n']

/-- An attached stdin channel: the lines already written, plus a failure
plan acting as an oracle for OS-level write errors (`true` = the next
`write_all` call fails). -/
structure Sink where
  written : List (List Char)
  plan : List Bool

/-- `ChildStdin::write_all`: consumes one entry of the failure plan and
reports whether the write succeeded. -/
def writeAll (k : Sink) (s : List Char) : Bool × Sink :=
  match k.plan with
  | [] => (true, ⟨k.written ++ [s], []⟩)
  | b :: r => if b then (false, ⟨k.written, r⟩) else (true, ⟨k.written ++ [s], r⟩)

/-- Bridge outbound state: the optional attached stdin and the FIFO
message queue. -/
structure BridgeOut where
  stdin : Option Sink
  queue : List IPCMessage

/-- The loop body of `flush_message_queue`, over an arbitrary encoder:
pop each message from the front; a message whose encoding fails is
skipped; a failed write puts the message back at the front of the queue
and stops the drain. -/
def flushLoopWith (enc : IPCMessage → Option (List Char)) :
    Sink → List IPCMessage → Sink × List IPCMessage
  | k, [] => (k, [])
  | k, m :: q =>
    match enc m with
    | none => flushLoopWith enc k q
    | some s =>
      match writeAll k s with
      | (true, k2) => flushLoopWith enc k2 q
      | (false, k2) => (k2, m :: q)

/-- The bridge's encoder, as an `Option` (total on this message type). -/
def encodeOpt (m : IPCMessage) : Option (List Char) :=
  match encode_message_for_stdin m with
  | .ok s => some s
  | .error _ => none

/-- `IPCBridge::flush_message_queue`. -/
def IPCBridge.flush_message_queue (st : BridgeOut) : BridgeOut :=
  match st.stdin with
  | none => st
  | some k =>
    let r := flushLoopWith encodeOpt k st.queue
    ⟨some r.1, r.2⟩

/-- `IPCBridge::set_stdin`: install the channel, then flush the queue. -/
def IPCBridge.set_stdin (st : BridgeOut) (k : Sink) : BridgeOut :=
  IPCBridge.flush_message_queue ⟨some k, st.queue⟩

/-- `IPCBridge::send_to_node`: encode, then write-and-flush if stdin is
attached; if stdin is not attached, queue the message and return `Ok`. -/
def IPCBridge.send_to_node (st : BridgeOut) (msg : IPCMessage) :
    Except String Unit × BridgeOut :=
  match encodeOpt msg with
  | none => (.error "Failed to encode message", st)
  | some s =>
    match st.stdin with
    | some k =>
      match writeAll k s with
      | (true, k2) => (.ok (), ⟨some k2, st.queue⟩)
      | (false, k2) => (.error "Failed to write to Node.js stdin", ⟨some k2, st.queue⟩)
    | none => (.ok (), ⟨none, st.queue ++ [msg]⟩)

/-- `IPCBridge::queue_message`. -/
def IPCBridge.queue_message (st : BridgeOut) (msg : IPCMessage) : BridgeOut :=
  ⟨st.stdin, st.queue ++ [msg]⟩

/-- `IPCBridge::queue_size`. -/
def IPCBridge.queue_size (st : BridgeOut) : Nat :=
  st.queue.length

/-- Send a list of messages in order, collecting the results. -/
def sendAll (st : BridgeOut) : List IPCMessage → List (Except String Unit) × BridgeOut
  | [] => ([], st)
  | m :: ms =>
    let r := IPCBridge.send_to_node st m
    let rs := sendAll r.2 ms
    (r.1 :: rs.1, rs.2)

theorem encodeOpt_eq (m : IPCMessage) : encodeOpt m = some (encodeString m) := rfl

theorem sendAll_unattached (msgs : List IPCMessage) (q0 : List IPCMessage) :
    sendAll ⟨none, q0⟩ msgs
      = (msgs.map (fun _ => .ok ()), ⟨none, q0 ++ msgs⟩) := by
  induction msgs generalizing q0 with
  | nil => simp [sendAll]
  | cons m ms ih =>
    rw [sendAll]
    simp only [IPCBridge.send_to_node, encodeOpt_eq]
    rw [ih (q0 ++ [m])]
    simp

theorem flushLoop_all_ok (w0 : List (List Char)) (q : List IPCMessage) :
    flushLoopWith encodeOpt ⟨w0, []⟩ q
      = (⟨w0 ++ q.map encodeString, []⟩, []) := by
  induction q generalizing w0 with
  | nil => simp [flushLoopWith]
  | cons m ms ih =>
    rw [flushLoopWith, encodeOpt_eq]
    show flushLoopWith encodeOpt ⟨w0 ++ [encodeString m], []⟩ ms = _
    rw [ih (w0 ++ [encodeString m])]
    simp

theorem flushLoop_fail_at (w0 : List (List Char)) (k : Nat) (q : List IPCMessage)
    (hk : k < q.length) :
    flushLoopWith encodeOpt ⟨w0, List.replicate k false ++ [true]⟩ q
      = (⟨w0 ++ (q.take k).map encodeString, []⟩, q.drop k) := by
  induction k generalizing w0 q with
  | zero =>
    cases q with
    | nil => simp at hk
    | cons m ms =>
      rw [flushLoopWith, encodeOpt_eq]
      simp [writeAll]
  | succ n ih =>
    cases q with
    | nil => simp at hk
    | cons m ms =>
      rw [flushLoopWith, encodeOpt_eq]
      show flushLoopWith encodeOpt ⟨w0 ++ [encodeString m], List.replicate n false ++ [true]⟩ ms = _
      rw [ih (w0 ++ [encodeString m]) ms (by simpa using hk)]
      simp

theorem flushLoop_drop_unencodable (enc : IPCMessage → Option (List Char)) (k : Sink)
    (m : IPCMessage) (q : List IPCMessage) (h : enc m = none) :
    flushLoopWith enc k (m :: q) = flushLoopWith enc k q := by
  rw [flushLoopWith, h]

/-! ### Correlation table, event registry, inbound listener -/

/-- `PendingRequest`: the callback is identified by a number (its identity
is all the proofs need); times are abstract clock readings. -/
structure PendingRequest where
  event : String
  cb : Nat
  created_at : Nat
  timeout : Nat

/-- The correlation table (`HashMap<String, PendingRequest>`). -/
abbrev Table := List (String × PendingRequest)

/-- Map lookup by request id. -/
def tableLookup (t : Table) (id : String) : Option PendingRequest :=
  (t.find? (fun p => p.1 = id)).map Prod.snd

/-- Map removal by request id (`HashMap::remove`). -/
def tableErase (t : Table) (id : String) : Table :=
  t.filter (fun p => ¬p.1 = id)

/-- Map insertion (`HashMap::insert` replaces any previous binding). -/
def tableInsert (t : Table) (id : String) (r : PendingRequest) : Table :=
  (id, r) :: tableErase t id

/-- `IPCBridge::cancel_request`: remove the entry, report whether it was
present; the callback is dropped without being invoked. -/
def IPCBridge.cancel_request (t : Table) (id : String) : Bool × Table :=
  ((tableLookup t id).isSome, tableErase t id)

/-- `IPCBridge::pending_request_count`. -/
def IPCBridge.pending_request_count (t : Table) : Nat :=
  t.length

/-- The response path of the inbound listener: if the message is a
`Response` whose id matches a pending request, remove the entry and
return it together with the new table. -/
def takeResponse (t : Table) (m : IPCMessage) : Option (PendingRequest × Table) :=
  if m.msg_type = .response then
    match m.id with
    | some id =>
      match tableLookup t id with
      | some r => some (r, tableErase t id)
      | none => none
    | none => none
  else none

/-- The argument a completion callback is invoked with. -/
inductive CbResult where
  | ok (p : Json)
  | err (e : String)

/-- `Err(error)` if the response carries an error, else `Ok(payload)`. -/
def cbResultOf (m : IPCMessage) : CbResult :=
  match m.error with
  | some e => .err e
  | none => .ok m.payload

/-- Observable actions of the bridge: a completion callback invocation, an
event-handler invocation, and the general on-message hook. -/
inductive TraceAction where
  | invoke (cb : Nat) (r : CbResult)
  | handlerRun (h : Nat) (p : Json)
  | hook (m : IPCMessage)

/-- The event registry (`HashMap<String, Vec<handler>>`); handlers are
identified by numbers, a vector keeps registration order. -/
abbrev Handlers := List (String × List Nat)

/-- `IPCBridge::on`: append the handler to the entry for this event. -/
def IPCBridge.on (hs : Handlers) (event : String) (h : Nat) : Handlers :=
  if (hs.find? (fun p => p.1 = event)).isSome then
    hs.map (fun p => if p.1 = event then (p.1, p.2 ++ [h]) else p)
  else hs ++ [(event, [h])]

/-- Handlers registered for an event, in registration order. -/
def handlersFor (hs : Handlers) (event : String) : List Nat :=
  match hs.find? (fun p => p.1 = event) with
  | some p => p.2
  | none => []

/-- One iteration of the inbound listener on a line of child output
(`IPCBridge::start_stdout_listener`): skip blank lines; skip undecodable
lines; if the message is a `Response` matching a pending request, invoke
its callback and `continue` (skipping handlers and hook); otherwise fan
out to the registered handlers in order and call the on-message hook. -/
def processLine (t : Table) (hs : Handlers) (line : List Char) :
    Table × List TraceAction :=
  if (rustTrim line).isEmpty then (t, [])
  else
    match parse_stdin_message line with
    | .error _ => (t, [])
    | .ok msg =>
      match takeResponse t msg with
      | some (r, t2) => (t2, [.invoke r.cb (cbResultOf msg)])
      | none =>
        (t, (handlersFor hs msg.event).map (fun h => .handlerRun h msg.payload)
          ++ [.hook msg])

/-- One tick of the timeout checker (`IPCBridge::start_timeout_checker`):
under one lock acquisition, collect the entries whose age exceeds their
timeout, remove them, and invoke each callback with a timeout error. -/
def sweepTick (t : Table) (now : Nat) : Table × List TraceAction :=
  (t.filter (fun p => ¬p.2.timeout < now - p.2.created_at),
   (t.filter (fun p => p.2.timeout < now - p.2.created_at)).map
     (fun p => .invoke p.2.cb (.err "Request timed out")))

/-- The operations that touch the correlation table. -/
inductive TableOp where
  | register (id : String) (req : PendingRequest)
  | response (m : IPCMessage)
  | sweep (now : Nat)
  | cancel (id : String)

/-- Effect of one operation on the table, with the actions it emits. -/
def stepOp (t : Table) : TableOp → Table × List TraceAction
  | .register id r => (tableInsert t id r, [])
  | .response m =>
    match takeResponse t m with
    | some (r, t2) => (t2, [.invoke r.cb (cbResultOf m)])
    | none => (t, [])
  | .sweep now => sweepTick t now
  | .cancel id => ((IPCBridge.cancel_request t id).2, [])

/-- Run a sequence of operations, concatenating the emitted actions. -/
def runOps (t : Table) : List TableOp → Table × List TraceAction
  | [] => (t, [])
  | op :: ops =>
    let r := stepOp t op
    let r2 := runOps r.1 ops
    (r2.1, r.2 ++ r2.2)

/-- Number of invocations of callback `cb` in an action list. -/
def invokeCount (acts : List TraceAction) (cb : Nat) : Nat :=
  acts.countP (fun a => match a with | .invoke c _ => c = cb | _ => false)

/-- Number of table entries holding callback `cb`. -/
def tblCbCount (t : Table) (cb : Nat) : Nat :=
  t.countP (fun p => p.2.cb = cb)

/-- Number of registrations of callback `cb` in an operation list. -/
def regCount (ops : List TableOp) (cb : Nat) : Nat :=
  ops.countP (fun op => match op with | .register _ r => r.cb = cb | _ => false)

/-- `generate_request_id`: `format!("req_{}", nanos)` over the
`SystemTime` nanosecond reading observed by the call. -/
def generate_request_id (nanos : Nat) : String :=
  ⟨'r' :: 'e' :: 'q' :: '_' :: natDigits nanos⟩

/-- Ids produced by a sequence of calls observing the given clock
readings. -/
def requestIds (ts : List Nat) : List String :=
  ts.map generate_request_id

/-- Full bridge state for the request path. -/
structure Bridge where
  out : BridgeOut
  pending_requests : Table
  request_timeout_secs : Nat

/-- `IPCBridge::request_with_timeout`: generate the id, insert the
`PendingRequest` into the correlation table, then send; the id is
returned on success, and the entry stays registered even if the send
fails. -/
def IPCBridge.request_with_timeout (b : Bridge) (nanos now : Nat) (event : String)
    (payload : Json) (timeout_secs : Nat) (cb : Nat) :
    Except String String × Bridge :=
  let id := generate_request_id nanos
  let msg := IPCMessage.mkRequest id event payload
  let t2 := tableInsert b.pending_requests id ⟨event, cb, now, timeout_secs⟩
  let r := IPCBridge.send_to_node b.out msg
  match r.1 with
  | .ok _ => (.ok id, ⟨r.2, t2, b.request_timeout_secs⟩)
  | .error e => (.error e, ⟨r.2, t2, b.request_timeout_secs⟩)

/-- `IPCBridge::request`: like `request_with_timeout` with the bridge's
default timeout. -/
def IPCBridge.request (b : Bridge) (nanos now : Nat) (event : String)
    (payload : Json) (cb : Nat) : Except String String × Bridge :=
  IPCBridge.request_with_timeout b nanos now event payload b.request_timeout_secs cb

/-! ### Exactly-once accounting for the correlation table -/

theorem countP_filter_split {α : Type} (p q : α → Bool) (l : List α) :
    l.countP p = (l.filter q).countP p + (l.filter (fun a => !q a)).countP p := by
  induction l with
  | nil => simp
  | cons a as ih =>
    by_cases hp : p a <;> by_cases hq : q a <;>
      simp [List.filter_cons, hp, hq, List.countP_cons, ih] <;> omega

theorem tblCbCount_erase_le (t : Table) (id : String) (cb : Nat) :
    tblCbCount (tableErase t id) cb ≤ tblCbCount t cb :=
  List.Sublist.countP_le _ (List.filter_sublist t)

theorem takeResponse_inv {t : Table} {m : IPCMessage} {r : PendingRequest} {t2 : Table}
    (h : takeResponse t m = some (r, t2)) :
    ∃ id, m.id = some id ∧ tableLookup t id = some r ∧ t2 = tableErase t id := by
  unfold takeResponse at h
  by_cases hmt : m.msg_type = .response
  · rw [if_pos hmt] at h
    cases hid : m.id with
    | none =>
      rw [hid] at h
      have h2 : (none : Option (PendingRequest × Table)) = some (r, t2) := h
      simp at h2
    | some id =>
      rw [hid] at h
      have h2 : (match tableLookup t id with
          | some r => some (r, tableErase t id)
          | none => none) = some (r, t2) := h
      cases hl : tableLookup t id with
      | none =>
        rw [hl] at h2
        simp at h2
      | some r0 =>
        rw [hl] at h2
        simp at h2
        exact ⟨id, rfl, by rw [hl, h2.1], h2.2.symm⟩
  · rw [if_neg hmt] at h
    have h2 : (none : Option (PendingRequest × Table)) = some (r, t2) := h
    simp at h2

theorem tblCbCount_lookup_found {t : Table} {id : String} {r : PendingRequest}
    (h : tableLookup t id = some r) (cb : Nat) :
    (if r.cb = cb then 1 else 0) + tblCbCount (tableErase t id) cb ≤ tblCbCount t cb := by
  have hsplit := countP_filter_split (fun p => p.2.cb = cb) (fun p => ¬p.1 = id) t
  by_cases hc : r.cb = cb
  · rw [if_pos hc]
    obtain ⟨a, hfind, hsnd⟩ := Option.map_eq_some'.mp h
    have hmem := List.mem_of_find?_eq_some hfind
    have hkey : a.1 = id := by simpa using List.find?_some hfind
    have hin : a ∈ t.filter (fun p => !(decide (¬p.1 = id))) := by
      simp [List.mem_filter, hmem, hkey]
    have hpos : 0 < (t.filter (fun p => !(decide (¬p.1 = id)))).countP
        (fun p => p.2.cb = cb) := by
      rw [List.countP_pos]
      exact ⟨a, hin, by simp [hsnd, hc]⟩
    rw [tblCbCount, tblCbCount, hsplit]
    simp only [tableErase]
    omega
  · rw [if_neg hc]
    simpa using tblCbCount_erase_le t id cb

theorem invokeCount_append (a b : List TraceAction) (cb : Nat) :
    invokeCount (a ++ b) cb = invokeCount a cb + invokeCount b cb := by
  simp [invokeCount, List.countP_append]

theorem stepOp_bound (t : Table) (op : TableOp) (cb : Nat) :
    invokeCount (stepOp t op).2 cb + tblCbCount (stepOp t op).1 cb
      ≤ tblCbCount t cb + regCount [op] cb := by
  cases op with
  | register id r =>
    have h := tblCbCount_erase_le t id cb
    have h0 : invokeCount [] cb = 0 := rfl
    have hreg : regCount [TableOp.register id r] cb = (if r.cb = cb then 1 else 0) := by
      by_cases hc : r.cb = cb <;> simp [regCount, List.countP_cons, hc]
    have hins : tblCbCount (tableInsert t id r) cb
        = tblCbCount (tableErase t id) cb + (if r.cb = cb then 1 else 0) := by
      by_cases hc : r.cb = cb <;> simp [tblCbCount, tableInsert, List.countP_cons, hc]
    show invokeCount [] cb + tblCbCount (tableInsert t id r) cb
      ≤ tblCbCount t cb + regCount [TableOp.register id r] cb
    rw [h0, hins, hreg]
    omega
  | response m =>
    have hreg : regCount [TableOp.response m] cb = 0 := rfl
    cases hr : takeResponse t m with
    | none =>
      simp only [stepOp, hr]
      show invokeCount [] cb + tblCbCount t cb
        ≤ tblCbCount t cb + regCount [TableOp.response m] cb
      rw [show invokeCount [] cb = 0 from rfl, hreg]
      omega
    | some pr =>
      obtain ⟨r, t2⟩ := pr
      obtain ⟨id, -, hl, ht2⟩ := takeResponse_inv hr
      have hb := tblCbCount_lookup_found hl cb
      have hiv : invokeCount [TraceAction.invoke r.cb (cbResultOf m)] cb
          = (if r.cb = cb then 1 else 0) := by
        by_cases hc : r.cb = cb <;> simp [invokeCount, List.countP_cons, hc]
      simp only [stepOp, hr]
      show invokeCount [TraceAction.invoke r.cb (cbResultOf m)] cb + tblCbCount t2 cb
        ≤ tblCbCount t cb + regCount [TableOp.response m] cb
      rw [hiv, hreg, ht2]
      omega
  | sweep now =>
    have hcomp : ((fun a => match a with
        | TraceAction.invoke c _ => decide (c = cb)
        | _ => false) ∘ (fun p : String × PendingRequest =>
          TraceAction.invoke p.2.cb (CbResult.err "Request timed out")))
        = (fun p : String × PendingRequest => decide (p.2.cb = cb)) := by
      funext p
      rfl
    have h1 : invokeCount ((t.filter (fun p => p.2.timeout < now - p.2.created_at)).map
        (fun p => TraceAction.invoke p.2.cb (CbResult.err "Request timed out"))) cb
        = tblCbCount (t.filter (fun p => p.2.timeout < now - p.2.created_at)) cb := by
      rw [invokeCount, List.countP_map, hcomp, tblCbCount]
    have hfe : t.filter (fun p => !(decide (¬p.2.timeout < now - p.2.created_at)))
        = t.filter (fun p => p.2.timeout < now - p.2.created_at) :=
      List.filter_congr (fun a _ => by simp only [decide_not, Bool.not_not])
    have hsplit := countP_filter_split (fun p : String × PendingRequest =>
        decide (p.2.cb = cb))
      (fun p => decide (¬p.2.timeout < now - p.2.created_at)) t
    rw [hfe] at hsplit
    show invokeCount ((t.filter (fun p => p.2.timeout < now - p.2.created_at)).map
        (fun p => TraceAction.invoke p.2.cb (CbResult.err "Request timed out"))) cb
      + tblCbCount (t.filter (fun p => ¬p.2.timeout < now - p.2.created_at)) cb
      ≤ tblCbCount t cb + regCount [TableOp.sweep now] cb
    rw [h1]
    have hr : regCount [TableOp.sweep now] cb = 0 := rfl
    rw [hr]
    simp only [tblCbCount]
    omega
  | cancel id =>
    have h := tblCbCount_erase_le t id cb
    show invokeCount [] cb + tblCbCount (tableErase t id) cb
      ≤ tblCbCount t cb + regCount [TableOp.cancel id] cb
    rw [show invokeCount [] cb = 0 from rfl,
      show regCount [TableOp.cancel id] cb = 0 from rfl]
    omega

theorem regCount_cons (op : TableOp) (ops : List TableOp) (cb : Nat) :
    regCount (op :: ops) cb = regCount [op] cb + regCount ops cb := by
  simp [regCount, List.countP_cons]
  omega

theorem runOps_bound (t : Table) (ops : List TableOp) (cb : Nat) :
    invokeCount (runOps t ops).2 cb + tblCbCount (runOps t ops).1 cb
      ≤ tblCbCount t cb + regCount ops cb := by
  induction ops generalizing t with
  | nil =>
    show invokeCount [] cb + tblCbCount t cb ≤ tblCbCount t cb + regCount [] cb
    rw [show invokeCount [] cb = 0 from rfl]
    omega
  | cons op ops ih =>
    have h1 := stepOp_bound t op cb
    have h2 := ih (stepOp t op).1
    show invokeCount ((stepOp t op).2 ++ (runOps (stepOp t op).1 ops).2) cb
      + tblCbCount (runOps (stepOp t op).1 ops).1 cb
      ≤ tblCbCount t cb + regCount (op :: ops) cb
    rw [invokeCount_append, regCount_cons]
    omega

theorem generate_request_id_injective {t1 t2 : Nat}
    (h : generate_request_id t1 = generate_request_id t2) : t1 = t2 := by
  have hd : ('r' :: 'e' :: 'q' :: '_' :: natDigits t1 : List Char)
      = 'r' :: 'e' :: 'q' :: '_' :: natDigits t2 := congrArg String.data h
  simp only [List.cons.injEq, true_and] at hd
  exact natDigits_injective hd

theorem tableLookup_insert (t : Table) (id : String) (r : PendingRequest) :
    tableLookup (tableInsert t id r) id = some r := by
  simp [tableLookup, tableInsert, List.find?]

theorem tableLookup_erase (t : Table) (id : String) :
    tableLookup (tableErase t id) id = none := by
  simp only [tableLookup, tableErase, Option.map_eq_none']
  rw [List.find?_eq_none]
  intro p hp
  have h2 := (List.mem_filter.mp hp).2
  simpa using h2

/-! ### Process supervisor (src/src-tauri/src/process.rs) -/

/-- `MAX_RESTART_ATTEMPTS`. -/
def MAX_RESTART_ATTEMPTS : Nat := 5

/-- `RESTART_COOLDOWN_SECS`. -/
def RESTART_COOLDOWN_SECS : Nat := 5

/-- One `try_wait` observation during shutdown. -/
inductive TryWaitRes where
  | exited (code : Int)
  | running
  | errw (msg : String)
deriving DecidableEq

/-- A supervised child as seen by shutdown: pid, successive `try_wait`
results (`running` beyond the end of the list), and whether `kill`
succeeds on it. -/
structure ShChild where
  pid : Nat
  polls : List TryWaitRes
  killOk : Bool

/-- The `try_wait` result at poll index `i`. -/
def pollAt (c : ShChild) (i : Nat) : TryWaitRes :=
  c.polls.getD i .running

/-- Outcome of `shutdown_gracefully`, remembering which path produced
it. -/
inductive ShutdownOutcome where
  | noChild
  | graceful (code : Int)
  | forcedOk
  | forcedErr (msg : String)
  | waitErr (msg : String)
deriving DecidableEq

/-- The `Result` the Rust function returns for each outcome. -/
def ShutdownOutcome.toResult : ShutdownOutcome → Except String Unit
  | .noChild => .ok ()
  | .graceful _ => .ok ()
  | .forcedOk => .ok ()
  | .forcedErr e => .error e
  | .waitErr e => .error e

/-- The polling loop of `shutdown_gracefully` (`for i in 0..shutdown_timeout`
with a 100 ms sleep per iteration); on exhaustion, force-kill. -/
def shutdownLoop (c : ShChild) : Nat → Nat → ShutdownOutcome
  | 0, _ => if c.killOk then .forcedOk else .forcedErr "Force kill failed"
  | n + 1, i =>
    match pollAt c i with
    | .exited code => .graceful code
    | .running => shutdownLoop c n (i + 1)
    | .errw e => .waitErr e

/-- The literal `shutdown_timeout = 30` of the source (30 poll iterations
of 100 ms each, i.e. 3 seconds). -/
def shutdown_timeout : Nat := 30

/-- `ProcessManager` state relevant to shutdown and liveness. -/
structure PMState where
  child : Option ShChild

/-- `ProcessManager::shutdown_gracefully`: takes the child handle out of
the state at entry (never restoring it), sends the termination signal
(the child's reaction is encoded in its poll results), polls
`shutdown_timeout` times at 100 ms intervals, then falls back to
force-kill. -/
def ProcessManager.shutdown_gracefully (st : PMState) : ShutdownOutcome × PMState :=
  match st.child with
  | none => (.noChild, ⟨none⟩)
  | some c => (shutdownLoop c shutdown_timeout 0, ⟨none⟩)

/-- `ProcessManager::is_running`. -/
def ProcessManager.is_running (st : PMState) : Bool :=
  st.child.isSome

/-- `ProcessManager::get_pid`. -/
def ProcessManager.get_pid (st : PMState) : Option Nat :=
  st.child.map ShChild.pid

/-- Result of a respawn attempt (`Command::spawn`). -/
inductive SpawnRes where
  | ok (pid : Nat)
  | fail
deriving DecidableEq

/-- One observation of the crash-monitor loop: the child still runs, the
status check errored, or the child exited (with its success flag); an
exit observation carries the clock reading at that tick and the oracle
for the respawn the monitor may then attempt. -/
inductive MonObs where
  | running
  | checkErr
  | exited (success : Bool) (time : Nat) (spawn : SpawnRes)

/-- Supervisor state used by `restart_on_crash`: the cloned script,
working directory and spawn environment, the child handle, the restart
counter and the last-restart timestamp. -/
structure MonState where
  script : String
  workdir : String
  envMode : String
  envPort : String
  child : Option Nat
  restart_attempts : Nat
  last_restart : Option Nat

/-- Events the monitor performs. -/
inductive MonEvent where
  | cleanReset
  | haltMax
  | respawned (script workdir envMode envPort : String) (pid : Nat) (time : Nat)
  | respawnFailed

/-- Effective respawn time after the cooldown check: if less than
`RESTART_COOLDOWN_SECS` elapsed since the last restart, sleep the
remainder first. -/
def cooldownTime (last : Option Nat) (t : Nat) : Nat :=
  match last with
  | none => t
  | some l => if t - l < RESTART_COOLDOWN_SECS then l + RESTART_COOLDOWN_SECS else t

/-- Handle one observed exit in `restart_on_crash`: a clean exit resets
the counter; a crash with the counter at the maximum halts; otherwise the
monitor respawns with the identical cloned configuration, incrementing
the counter, and recording the restart time only on spawn success.  In
every case the monitor loop `break`s afterwards. -/
def monitorExit (s : MonState) (success : Bool) (t : Nat) (sp : SpawnRes) :
    MonState × List MonEvent :=
  if success then
    ({s with restart_attempts := 0}, [.cleanReset])
  else if MAX_RESTART_ATTEMPTS ≤ s.restart_attempts then
    (s, [.haltMax])
  else
    match sp with
    | .ok pid =>
      ({ s with
         child := some pid
         restart_attempts := s.restart_attempts + 1
         last_restart := some (cooldownTime s.last_restart t) },
       [.respawned s.script s.workdir s.envMode s.envPort pid
         (cooldownTime s.last_restart t)])
    | .fail =>
      ({s with restart_attempts := s.restart_attempts + 1}, [.respawnFailed])

/-- The monitor loop of `restart_on_crash` over a list of poll
observations: `running` and `checkErr` continue the loop, as does a
missing child handle; any observed exit is handled by `monitorExit` and
then the loop breaks, leaving the remaining observations unprocessed. -/
def monitorRun (s : MonState) : List MonObs → MonState × List MonEvent
  | [] => (s, [])
  | o :: obs =>
    match s.child with
    | none => monitorRun s obs
    | some _ =>
      match o with
      | .running => monitorRun s obs
      | .checkErr => monitorRun s obs
      | .exited success t sp => monitorExit s success t sp

/-- Number of respawn events. -/
def countRespawns (evs : List MonEvent) : Nat :=
  evs.countP (fun e => match e with | .respawned _ _ _ _ _ _ => true | _ => false)

/-- An observation that does not end the monitor loop. -/
def nonExit : MonObs → Prop
  | .exited _ _ _ => False
  | _ => True

theorem monitorExit_respawns_le_one (s : MonState) (success : Bool) (t : Nat)
    (sp : SpawnRes) : countRespawns (monitorExit s success t sp).2 ≤ 1 := by
  cases success <;> cases sp <;>
    by_cases h : MAX_RESTART_ATTEMPTS ≤ s.restart_attempts <;>
    simp [monitorExit, h, countRespawns, List.countP_cons]

theorem monitorRun_respawns_le_one (s : MonState) (obs : List MonObs) :
    countRespawns (monitorRun s obs).2 ≤ 1 := by
  induction obs generalizing s with
  | nil => simp [monitorRun, countRespawns]
  | cons o obs ih =>
    cases hc : s.child with
    | none => cases o <;> rw [monitorRun, hc] <;> exact ih s
    | some pid =>
      cases o with
      | running => rw [monitorRun, hc]; exact ih s
      | checkErr => rw [monitorRun, hc]; exact ih s
      | exited success t sp =>
        rw [monitorRun, hc]
        exact monitorExit_respawns_le_one s success t sp

theorem monitorRun_skip (s : MonState) (pre : List MonObs)
    (hpre : ∀ o ∈ pre, nonExit o) (rest : List MonObs) :
    monitorRun s (pre ++ rest) = monitorRun s rest := by
  induction pre with
  | nil => rfl
  | cons o pre ih =>
    have hpre2 : ∀ x ∈ pre, nonExit x := fun x hx => hpre x (by simp [hx])
    rw [List.cons_append]
    cases hc : s.child with
    | none => cases o <;> rw [monitorRun, hc] <;> exact ih hpre2
    | some pid =>
      cases o with
      | running => rw [monitorRun, hc]; exact ih hpre2
      | checkErr => rw [monitorRun, hc]; exact ih hpre2
      | exited success t sp =>
        exact absurd (hpre (MonObs.exited success t sp) (by simp))
          (by simp [nonExit])

theorem monitorRun_first_exit (s : MonState) (hs : s.child.isSome = true)
    (pre : List MonObs) (hpre : ∀ o ∈ pre, nonExit o) (success : Bool) (t : Nat)
    (sp : SpawnRes) (rest : List MonObs) :
    monitorRun s (pre ++ .exited success t sp :: rest)
      = monitorExit s success t sp := by
  rw [monitorRun_skip s pre hpre, monitorRun]
  cases hc : s.child with
  | none => rw [hc] at hs; simp at hs
  | some pid => rfl

theorem shutdownLoop_graceful (c : ShChild) (code : Int) :
    ∀ (k n i : Nat), k < n → (∀ j, j < k → pollAt c (i + j) = .running) →
      pollAt c (i + k) = .exited code → shutdownLoop c n i = .graceful code := by
  intro k
  induction k with
  | zero =>
    intro n i hk hrun hex
    obtain ⟨m, rfl⟩ : ∃ m, n = m + 1 := ⟨n - 1, by omega⟩
    have hex2 : pollAt c i = .exited code := by simpa using hex
    rw [shutdownLoop, hex2]
  | succ kk ih =>
    intro n i hk hrun hex
    obtain ⟨m, rfl⟩ : ∃ m, n = m + 1 := ⟨n - 1, by omega⟩
    have h0 : pollAt c i = .running := by simpa using hrun 0 (by omega)
    rw [shutdownLoop, h0]
    refine ih m (i + 1) (by omega) (fun j hj => ?_) ?_
    · have h2 := hrun (j + 1) (by omega)
      rw [show i + 1 + j = i + (j + 1) by omega]
      exact h2
    · rw [show i + 1 + kk = i + (kk + 1) by omega]
      exact hex

theorem shutdownLoop_forced (c : ShChild) :
    ∀ (n i : Nat), (∀ j, j < n → pollAt c (i + j) = .running) →
      shutdownLoop c n i
        = (if c.killOk then .forcedOk else .forcedErr "Force kill failed") := by
  intro n
  induction n with
  | zero =>
    intro i h
    rw [shutdownLoop]
  | succ m ih =>
    intro i h
    have h0 : pollAt c i = .running := by simpa using h 0 (by omega)
    rw [shutdownLoop, h0]
    refine ih (i + 1) (fun j hj => ?_)
    have h2 := h (j + 1) (by omega)
    rw [show i + 1 + j = i + (j + 1) by omega]
    exact h2

theorem shutdownLoop_errw (c : ShChild) (e : String) :
    ∀ (k n i : Nat), k < n → (∀ j, j < k → pollAt c (i + j) = .running) →
      pollAt c (i + k) = .errw e → shutdownLoop c n i = .waitErr e := by
  intro k
  induction k with
  | zero =>
    intro n i hk hrun hex
    obtain ⟨m, rfl⟩ : ∃ m, n = m + 1 := ⟨n - 1, by omega⟩
    have hex2 : pollAt c i = .errw e := by simpa using hex
    rw [shutdownLoop, hex2]
  | succ kk ih =>
    intro n i hk hrun hex
    obtain ⟨m, rfl⟩ : ∃ m, n = m + 1 := ⟨n - 1, by omega⟩
    have h0 : pollAt c i = .running := by simpa using hrun 0 (by omega)
    rw [shutdownLoop, h0]
    refine ih m (i + 1) (by omega) (fun j hj => ?_) ?_
    · have h2 := hrun (j + 1) (by omega)
      rw [show i + 1 + j = i + (j + 1) by omega]
      exact h2
    · rw [show i + 1 + kk = i + (kk + 1) by omega]
      exact hex

/-! ### Claim-level fixtures -/

/-- A pending request used by the concrete examples: callback 7, created at
time 0, timeout 30. -/
def C1req : PendingRequest := ⟨"ev", 7, 0, 30⟩

/-- A one-entry correlation table holding `C1req` under id "a". -/
def C1tbl : Table := [("a", C1req)]

/-- A one-entry correlation table holding `C1req` under id "1". -/
def C2tbl : Table := [("1", C1req)]

/-- An event registry with handler 3 registered for event "ev". -/
def C2hs : Handlers := [("ev", [3])]

/-- A response message whose id matches the pending entry of `C2tbl` and
whose event has a registered handler in `C2hs`. -/
def C2resp : IPCMessage := IPCMessage.mkResponse "1" "ev" Json.null

/-- A supervisor state holding a live child, with the restart counter at
zero. -/
def C3state : MonState := ⟨"backend.js", "work", "production", "3000", some 1, 0, none⟩

/-- A child that exits with code 0 only at poll index 40 (4 seconds in),
and on which force-kill succeeds. -/
def C4child : ShChild :=
  ⟨1, List.replicate 40 TryWaitRes.running ++ [TryWaitRes.exited 0], true⟩

/-- A concrete outbound message. -/
def C5msgA : IPCMessage := IPCMessage.mkEvent "a" Json.null

/-- A second concrete outbound message. -/
def C5msgB : IPCMessage := IPCMessage.mkEvent "b" Json.null

/-! ### The claims -/

/-- C1: for every pending request, its completion callback is invoked at
most once, and only by a removal path (matching response, timeout sweep, or
cancel): over any sequence of table operations, the number of invocations
of a callback plus the entries still holding it never exceeds the entries
initially holding it plus its registrations; `cancel_request` reports
exactly whether the id was present and removes its entry; and once a
cancelled callback is out of the table and never re-registered, it is never
invoked afterwards. -/
theorem C1_callback_exactly_once (t : Table) (ops : List TableOp) (cb : Nat)
    (id : String) :
    invokeCount (runOps t ops).2 cb + tblCbCount (runOps t ops).1 cb
      ≤ tblCbCount t cb + regCount ops cb
    ∧ (IPCBridge.cancel_request t id).1 = (tableLookup t id).isSome
    ∧ tableLookup (IPCBridge.cancel_request t id).2 id = none
    ∧ (tblCbCount (IPCBridge.cancel_request t id).2 cb = 0 → regCount ops cb = 0 →
        invokeCount (runOps (IPCBridge.cancel_request t id).2 ops).2 cb = 0) := by
  refine ⟨runOps_bound t ops cb, rfl, tableLookup_erase t id, ?_⟩
  intro h0 hreg
  have hb := runOps_bound (IPCBridge.cancel_request t id).2 ops cb
  omega

/-- C1 witness: after cancelling the only entry holding callback 7, a
timeout sweep never invokes it. -/
theorem C1_callback_exactly_once_witness :
    invokeCount (runOps (IPCBridge.cancel_request C1tbl "a").2
      [TableOp.sweep 100]).2 7 = 0 :=
  (C1_callback_exactly_once C1tbl [TableOp.sweep 100] 7 "a").2.2.2
    (by decide) (by decide)

/-- C2 (amended): the inbound listener does NOT always fan out to the event
handlers and the on-message hook: on a decoded message, if a pending request
matches (`takeResponse` fires) the listener emits only the callback
invocation — skipping every handler and the hook — and only when no pending
request matches does it run the handlers in registration order followed by
the hook. -/
theorem C2_matched_response_skips_handlers (t : Table) (hs : Handlers)
    (line : List Char) (m : IPCMessage)
    (hp : parse_stdin_message line = Except.ok m) :
    (∀ r t2, takeResponse t m = some (r, t2) →
        processLine t hs line = (t2, [TraceAction.invoke r.cb (cbResultOf m)]))
    ∧ (takeResponse t m = none →
        processLine t hs line
          = (t, (handlersFor hs m.event).map
              (fun h => TraceAction.handlerRun h m.payload)
            ++ [TraceAction.hook m])) := by
  have hne : (rustTrim line).isEmpty = false := by
    cases hcase : (rustTrim line).isEmpty with
    | false => rfl
    | true =>
      exfalso
      have hp2 : parse_stdin_message line = Except.error "Empty message" := by
        simp [parse_stdin_message, hcase]
      rw [hp2] at hp
      exact Except.noConfusion hp
  constructor
  · intro r t2 htr
    simp [processLine, hne, hp, htr]
  · intro htr
    simp [processLine, hne, hp, htr]

/-- C2 witness: on a non-matching message against an empty table and
registry, the listener emits exactly the on-message hook. -/
theorem C2_matched_response_witness :
    processLine [] [] (encodeString (IPCMessage.mkEvent "e" Json.null))
      = ([], [TraceAction.hook (IPCMessage.mkEvent "e" Json.null)]) := by
  have h := (C2_matched_response_skips_handlers [] []
    (encodeString (IPCMessage.mkEvent "e" Json.null))
    (IPCMessage.mkEvent "e" Json.null)
    (parse_stdin_message_encode (IPCMessage.mkEvent "e" Json.null))).2 rfl
  rw [h]
  rfl

/-- C2 counterexample: a response line whose id matches a pending request
and whose event has a registered handler (handler 3 for event "ev"): the
listener emits only the callback invocation; handler 3 never runs and the
hook is never called, contradicting the claimed unconditional fan-out. -/
theorem C2_counterexample :
    handlersFor C2hs C2resp.event = [3]
    ∧ (processLine C2tbl C2hs (encodeString C2resp)).2
        = [TraceAction.invoke 7 (CbResult.ok Json.null)]
    ∧ (∀ p, TraceAction.handlerRun 3 p ∉ (processLine C2tbl C2hs (encodeString C2resp)).2)
    ∧ (∀ mm, TraceAction.hook mm ∉ (processLine C2tbl C2hs (encodeString C2resp)).2) := by
  have hparse : parse_stdin_message (encodeString C2resp) = Except.ok C2resp :=
    parse_stdin_message_encode C2resp
  have hne : (rustTrim (encodeString C2resp)).isEmpty = false := by
    show (rustTrim (renderJson (messageToJson C2resp) ++ [Char.ofNat 10])).isEmpty = false
    rw [rustTrim_wrap_msg]
    obtain ⟨l, hl⟩ := messageToJson_render_shape C2resp
    rw [hl]
    rfl
  have hmain : processLine C2tbl C2hs (encodeString C2resp)
      = (tableErase C2tbl "1", [TraceAction.invoke 7 (CbResult.ok Json.null)]) := by
    simp only [processLine, hne, hparse]
    rfl
  refine ⟨rfl, ?_, ?_, ?_⟩
  · rw [hmain]
  · intro p
    rw [hmain]
    simp
  · intro mm
    rw [hmain]
    simp

/-- C3 (amended): the crash monitor handles only the FIRST observed exit
and then breaks out of its loop: at most one respawn happens per monitor
invocation (not up to 5); the first exit after any run of non-exit polls is
handled by `monitorExit`, where a clean exit resets the counter, a crash
below the maximum respawns once with the identical cloned configuration
(incrementing the counter and recording the restart time), and a crash at
the maximum halts. -/
theorem C3_monitor_single_respawn (s : MonState) (pre : List MonObs)
    (hpre : ∀ o ∈ pre, nonExit o) (hs : s.child.isSome = true) (success : Bool)
    (t : Nat) (sp : SpawnRes) (rest : List MonObs) :
    monitorRun s (pre ++ MonObs.exited success t sp :: rest)
        = monitorExit s success t sp
    ∧ countRespawns (monitorRun s (pre ++ MonObs.exited success t sp :: rest)).2 ≤ 1
    ∧ (success = true →
        monitorExit s success t sp = ({s with restart_attempts := 0}, [MonEvent.cleanReset]))
    ∧ (success = false → s.restart_attempts < MAX_RESTART_ATTEMPTS →
        ∀ pid, sp = SpawnRes.ok pid →
        monitorExit s success t sp
          = ({ s with
               child := some pid
               restart_attempts := s.restart_attempts + 1
               last_restart := some (cooldownTime s.last_restart t) },
             [MonEvent.respawned s.script s.workdir s.envMode s.envPort pid
               (cooldownTime s.last_restart t)]))
    ∧ (success = false → MAX_RESTART_ATTEMPTS ≤ s.restart_attempts →
        monitorExit s success t sp = (s, [MonEvent.haltMax])) := by
  refine ⟨monitorRun_first_exit s hs pre hpre success t sp rest,
    monitorRun_respawns_le_one s _, ?_, ?_, ?_⟩
  · intro h
    subst h
    rfl
  · intro hf hlt pid hsp
    subst hf
    subst hsp
    simp only [monitorExit]
    rw [if_neg (by simp), if_neg (by omega)]
  · intro hf hge
    subst hf
    simp only [monitorExit]
    rw [if_neg (by simp), if_pos hge]

/-- C3 witness: with a live child and a `running` poll before the crash,
the monitor's outcome is exactly the one exit handler's. -/
theorem C3_monitor_single_respawn_witness :
    monitorRun C3state ([MonObs.running] ++ MonObs.exited false 10 (SpawnRes.ok 2) :: [])
      = monitorExit C3state false 10 (SpawnRes.ok 2) :=
  (C3_monitor_single_respawn C3state [MonObs.running]
    (by
      intro o ho
      rw [List.mem_singleton] at ho
      subst ho
      exact trivial)
    rfl false 10 (SpawnRes.ok 2) []).1

/-- C3 counterexample: six consecutive crashes (each with a successful
spawn available) yield exactly ONE respawn — the monitor breaks after the
first exit instead of respawning up to 5 times. -/
theorem C3_counterexample :
    countRespawns (monitorRun C3state
      (List.replicate 6 (MonObs.exited false 10 (SpawnRes.ok 2)))).2 = 1 := by
  rfl

/-- C4 (amended): `shutdown_gracefully` polls at 100 ms intervals only
`shutdown_timeout = 30` times — a 3-second window, not 30 seconds.  With no
child it is a no-op success; an exit observed within the 30 polls returns
the graceful outcome (an `Ok`); if all 30 polls still show the child
running it force-kills, succeeding or erroring with the force-kill; an
errored status check returns an error. -/
theorem C4_shutdown_window (c : ShChild) :
    ProcessManager.shutdown_gracefully ⟨none⟩ = (ShutdownOutcome.noChild, ⟨none⟩)
    ∧ shutdown_timeout = 30
    ∧ (∀ code k, k < shutdown_timeout →
        (∀ j, j < k → pollAt c j = TryWaitRes.running) →
        pollAt c k = TryWaitRes.exited code →
        ProcessManager.shutdown_gracefully ⟨some c⟩
          = (ShutdownOutcome.graceful code, ⟨none⟩))
    ∧ ((∀ j, j < shutdown_timeout → pollAt c j = TryWaitRes.running) →
        ProcessManager.shutdown_gracefully ⟨some c⟩
          = (if c.killOk then ShutdownOutcome.forcedOk
             else ShutdownOutcome.forcedErr "Force kill failed", ⟨none⟩))
    ∧ (∀ e k, k < shutdown_timeout →
        (∀ j, j < k → pollAt c j = TryWaitRes.running) →
        pollAt c k = TryWaitRes.errw e →
        ProcessManager.shutdown_gracefully ⟨some c⟩
          = (ShutdownOutcome.waitErr e, ⟨none⟩))
    ∧ (∀ code, (ShutdownOutcome.graceful code).toResult = Except.ok ())
    ∧ ShutdownOutcome.forcedOk.toResult = Except.ok ()
    ∧ (∀ e, (ShutdownOutcome.forcedErr e).toResult = Except.error e) := by
  refine ⟨rfl, rfl, ?_, ?_, ?_, fun code => rfl, rfl, fun e => rfl⟩
  · intro code k hk hrun hex
    have h := shutdownLoop_graceful c code k shutdown_timeout 0 hk
      (fun j hj => by simpa using hrun j hj) (by simpa using hex)
    show (shutdownLoop c shutdown_timeout 0, (⟨none⟩ : PMState)) = _
    rw [h]
  · intro hall
    have h := shutdownLoop_forced c shutdown_timeout 0
      (fun j hj => by simpa using hall j hj)
    show (shutdownLoop c shutdown_timeout 0, (⟨none⟩ : PMState)) = _
    rw [h]
  · intro e k hk hrun hex
    have h := shutdownLoop_errw c e k shutdown_timeout 0 hk
      (fun j hj => by simpa using hrun j hj) (by simpa using hex)
    show (shutdownLoop c shutdown_timeout 0, (⟨none⟩ : PMState)) = _
    rw [h]

/-- C4 witness: a child that exits with code 0 on the first poll shuts down
gracefully. -/
theorem C4_shutdown_window_witness :
    ProcessManager.shutdown_gracefully ⟨some ⟨1, [TryWaitRes.exited 0], true⟩⟩
      = (ShutdownOutcome.graceful 0, ⟨none⟩) :=
  (C4_shutdown_window ⟨1, [TryWaitRes.exited 0], true⟩).2.2.1 0 0 (by decide)
    (fun j hj => absurd hj (by omega)) rfl

/-- C4 counterexample: a child that exits at poll index 40 — 4 seconds in,
well inside the claimed 30-second window — is force-killed instead of being
observed to exit gracefully, because the loop polls only 30 times (3
seconds). -/
theorem C4_counterexample :
    (ProcessManager.shutdown_gracefully ⟨some C4child⟩).1 = ShutdownOutcome.forcedOk
    ∧ ∀ code, (ProcessManager.shutdown_gracefully ⟨some C4child⟩).1
        ≠ ShutdownOutcome.graceful code := by
  have h : (ProcessManager.shutdown_gracefully ⟨some C4child⟩).1
      = ShutdownOutcome.forcedOk := rfl
  refine ⟨h, fun code => ?_⟩
  rw [h]
  simp

/-- C5: messages sent while the channel is unattached are each appended to
the FIFO buffer and reported `Ok`; attaching drains the buffer to the
channel in exactly the order sent; and if the write fails at position `k`
of the drain, the first `k` messages are on the channel (never re-sent),
the failing message is back at the head of the buffer, and the rest of the
buffer is untouched. -/
theorem C5_queue_then_drain (msgs : List IPCMessage) (k : Nat) :
    (∀ q0, sendAll ⟨none, q0⟩ msgs
        = (msgs.map (fun _ => Except.ok ()), ⟨none, q0 ++ msgs⟩))
    ∧ (∀ w0, IPCBridge.set_stdin ⟨none, msgs⟩ ⟨w0, []⟩
        = ⟨some ⟨w0 ++ msgs.map encodeString, []⟩, []⟩)
    ∧ (∀ w0, k < msgs.length →
        IPCBridge.set_stdin ⟨none, msgs⟩ ⟨w0, List.replicate k false ++ [true]⟩
          = ⟨some ⟨w0 ++ (msgs.take k).map encodeString, []⟩, msgs.drop k⟩) := by
  refine ⟨fun q0 => sendAll_unattached msgs q0, fun w0 => ?_, fun w0 hk => ?_⟩
  · show (⟨some (flushLoopWith encodeOpt ⟨w0, []⟩ msgs).1,
        (flushLoopWith encodeOpt ⟨w0, []⟩ msgs).2⟩ : BridgeOut) = _
    rw [flushLoop_all_ok]
  · show (⟨some (flushLoopWith encodeOpt ⟨w0, List.replicate k false ++ [true]⟩ msgs).1,
        (flushLoopWith encodeOpt ⟨w0, List.replicate k false ++ [true]⟩ msgs).2⟩ : BridgeOut) = _
    rw [flushLoop_fail_at w0 k msgs hk]

/-- C5 witness: draining a two-message buffer with a write failure on the
second message leaves the first written, the second back at the head. -/
theorem C5_queue_then_drain_witness :
    IPCBridge.set_stdin ⟨none, [C5msgA, C5msgB]⟩ ⟨[], List.replicate 1 false ++ [true]⟩
      = ⟨some ⟨[] ++ ([C5msgA, C5msgB].take 1).map encodeString, []⟩,
          [C5msgA, C5msgB].drop 1⟩ :=
  (C5_queue_then_drain [C5msgA, C5msgB] 1).2.2 [] (by decide)

/-- C6: for every `IPCMessage` value, encoding succeeds and decoding the
encoded line reproduces the message exactly, including the `None` optional
fields (serialized as `null`). -/
theorem C6_round_trip (m : IPCMessage) :
    ∃ line, encode_message_for_stdin m = Except.ok line
      ∧ parse_stdin_message line = Except.ok m :=
  ⟨renderJson (messageToJson m) ++ [Char.ofNat 10], rfl, parse_stdin_message_encode m⟩

/-- C7: decoding trims surrounding whitespace (a line is decoded exactly as
its trimmed core); it errors exactly when the trimmed line is empty or does
not parse as a well-formed message; and it is total — on every input it
returns either an error or a message (it never panics, and as a pure
function it mutates nothing). -/
theorem C7_decode_total (raw ws1 ws2 : List Char)
    (h1 : ∀ c ∈ ws1, c.isWhitespace = true)
    (h2 : ∀ c ∈ ws2, c.isWhitespace = true) :
    parse_stdin_message (ws1 ++ raw ++ ws2) = parse_stdin_message raw
    ∧ ((∃ e, parse_stdin_message raw = Except.error e) ↔
        (rustTrim raw = []
          ∨ (parseJsonChars (rustTrim raw)).bind jsonToMessage = none))
    ∧ ((∃ e, parse_stdin_message raw = Except.error e)
        ∨ (∃ m, parse_stdin_message raw = Except.ok m)) := by
  refine ⟨parse_stdin_message_trim ws1 raw ws2 h1 h2,
    parse_stdin_message_error_iff raw, ?_⟩
  cases hp : parse_stdin_message raw with
  | error e => exact Or.inl ⟨e, rfl⟩
  | ok m => exact Or.inr ⟨m, rfl⟩

/-- C7 witness: surrounding whitespace does not change the decode result. -/
theorem C7_decode_total_witness :
    parse_stdin_message ([' '] ++ ['n', 'o'] ++ ['\t']) = parse_stdin_message ['n', 'o'] :=
  (C7_decode_total ['n', 'o'] [' '] ['\t'] (by decide) (by decide)).1

/-- C8 (amended): request ids are injective in the clock reading the call
observes — two calls produce distinct ids exactly when their `SystemTime`
nanosecond readings differ (equal readings collide, so ids are NOT
collision-free per se); each call registers its `PendingRequest` in the
correlation table before the send resolves (the entry is present under the
generated id whatever the send returns); and on success the call returns
the generated id. -/
theorem C8_request_id_registration (b : Bridge) (nanos now : Nat) (event : String)
    (payload : Json) (tmo cb : Nat) :
    (∀ t1 t2 : Nat, t1 ≠ t2 → generate_request_id t1 ≠ generate_request_id t2)
    ∧ tableLookup
        (IPCBridge.request_with_timeout b nanos now event payload tmo cb).2.pending_requests
        (generate_request_id nanos) = some ⟨event, cb, now, tmo⟩
    ∧ ((IPCBridge.request_with_timeout b nanos now event payload tmo cb).1
          = Except.ok (generate_request_id nanos)
        ∨ ∃ e, (IPCBridge.request_with_timeout b nanos now event payload tmo cb).1
          = Except.error e) := by
  refine ⟨fun t1 t2 hne heq => hne (generate_request_id_injective heq), ?_, ?_⟩
  · simp only [IPCBridge.request_with_timeout]
    cases hr : (IPCBridge.send_to_node b.out
        (IPCMessage.mkRequest (generate_request_id nanos) event payload)).1 with
    | ok u =>
      exact tableLookup_insert b.pending_requests (generate_request_id nanos)
        ⟨event, cb, now, tmo⟩
    | error e =>
      exact tableLookup_insert b.pending_requests (generate_request_id nanos)
        ⟨event, cb, now, tmo⟩
  · simp only [IPCBridge.request_with_timeout]
    cases hr : (IPCBridge.send_to_node b.out
        (IPCMessage.mkRequest (generate_request_id nanos) event payload)).1 with
    | ok u => exact Or.inl rfl
    | error e => exact Or.inr ⟨e, rfl⟩

/-- C8 witness: distinct clock readings give distinct ids. -/
theorem C8_request_id_registration_witness :
    generate_request_id 0 ≠ generate_request_id 1 :=
  (C8_request_id_registration ⟨⟨none, []⟩, [], 30⟩ 0 0 "e" Json.null 30 0).1 0 1
    (by decide)

/-- C8 counterexample: ids come from a wall-clock reading, so two calls
observing the same nanosecond reading produce the SAME id — the id
sequence of the readings [5, 5] has a duplicate, refuting process-lifetime
collision-freedom. -/
theorem C8_counterexample :
    requestIds [5, 5] = [generate_request_id 5, generate_request_id 5]
    ∧ ¬ (requestIds [5, 5]).Nodup := by
  refine ⟨rfl, ?_⟩
  intro h
  rw [show requestIds [5, 5]
      = [generate_request_id 5, generate_request_id 5] from rfl] at h
  exact (List.nodup_cons.mp h).1 (List.mem_singleton.mpr rfl)

/-- C9: `shutdown_gracefully` takes the child handle out of the manager
state at entry and never restores it: whatever the outcome — including the
error paths — the resulting state holds no child, `is_running` is false and
`get_pid` is `none`. -/
theorem C9_shutdown_clears_child (st : PMState) :
    (ProcessManager.shutdown_gracefully st).2 = ⟨none⟩
    ∧ ProcessManager.is_running (ProcessManager.shutdown_gracefully st).2 = false
    ∧ ProcessManager.get_pid (ProcessManager.shutdown_gracefully st).2 = none := by
  obtain ⟨c⟩ := st
  cases c with
  | none => exact ⟨rfl, rfl, rfl⟩
  | some ch => exact ⟨rfl, rfl, rfl⟩

/-- C10: during a drain, a message whose encoding fails is popped and
silently discarded — the drain result is exactly that of the rest of the
queue (nothing written for it, nothing put back, no error, drain
continues); only a write failure puts the message back at the head and
stops the drain. -/
theorem C10_unencodable_skipped (enc : IPCMessage → Option (List Char)) (k : Sink)
    (m : IPCMessage) (q : List IPCMessage) :
    (enc m = none → flushLoopWith enc k (m :: q) = flushLoopWith enc k q)
    ∧ (∀ s k2, enc m = some s → writeAll k s = (false, k2) →
        flushLoopWith enc k (m :: q) = (k2, m :: q)) := by
  constructor
  · intro h
    exact flushLoop_drop_unencodable enc k m q h
  · intro s k2 hs hw
    rw [flushLoopWith]
    simp [hs, hw]

/-- C10 witness: under an encoder that rejects everything, draining a
one-message queue equals draining the empty queue. -/
theorem C10_unencodable_skipped_witness :
    flushLoopWith (fun _ => none) ⟨[], []⟩ [IPCMessage.mkEvent "a" Json.null]
      = flushLoopWith (fun _ => none) ⟨[], []⟩ [] :=
  (C10_unencodable_skipped (fun _ => none) ⟨[], []⟩
    (IPCMessage.mkEvent "a" Json.null) []).1 rfl

end Cowork
